import Mathlib

/-
Formal model of src/src/util/src/tqueue.c (TDengine queue / queue-set core).

Shallow embedding conventions:
* Items are opaque values, modelled as Nat (the C code copies itemSize bytes
  with memcpy and never inspects them).
* A queue chain (head .. tail) is a list of items; the separate C tail
  pointer is modelled by the flag tailSet (tail pointer non-NULL), which the
  operations maintain exactly as the code maintains queue->tail.
* Heap objects live in a World: queues is a list of slots indexed by queue
  id (none = freed or never allocated), qsets is a list of queue sets
  indexed by set id.  The member list of a set, threaded through the C
  queue->next pointers, is modelled as the list of member queue ids in
  pointer order from qset->head; the C pointer queue->next then equals the
  element after the queue id in that list (helper nextAfter).
* int32_t counters are modelled as Int (no scenario here approaches 2^31).
* Fallible allocations (calloc of a node or of an STaosQall) are modelled by
  a Bool argument allocOk; mutexes serialize the code, so the sequential
  semantics is the model.
* The while loop of taosRemoveFromQset does not advance its cursor after a
  match, hence never terminates in that case; loops of that kind take a fuel
  argument and return none when the fuel is exhausted.
-/

namespace TQueue

set_option maxRecDepth 100000

/-- Model of STaosQueue (lines 26-34): item size, node chain from head,
tail pointer non-NULL flag, item count, and the back reference to the
queue set the queue belongs to (queue->qset), as a set id. -/
structure Queue where
  itemSize : Nat
  chain : List Nat
  tailSet : Bool
  numOfItems : Int
  qset : Option Nat
  deriving Repr, DecidableEq

/-- Model of STaosQset (lines 36-42): member queue ids in pointer order from
qset->head, the round robin cursor (qset->current, a queue pointer or NULL),
the queue count and the aggregate item count. -/
structure QSet where
  members : List Nat
  current : Option Nat
  numOfQueues : Int
  numOfItems : Int
  deriving Repr, DecidableEq

/-- Model of STaosQall (lines 44-49): the detached chain from its start
node, the traversal cursor as an offset into it (current = drop pos), the
item size and the item count. -/
structure QAll where
  allItems : List Nat
  pos : Nat
  itemSize : Nat
  numOfItems : Int
  deriving Repr, DecidableEq

/-- The heap: queue slots (none = freed) and queue set slots, indexed by id. -/
structure World where
  queues : List (Option Queue)
  qsets : List QSet
  deriving Repr, DecidableEq

/-- Read a queue slot; a freed or absent slot gives none. -/
def getQ (w : World) (qid : Nat) : Option Queue :=
  match w.queues[qid]? with
  | some (some q) => some q
  | _ => none

/-- Overwrite a queue slot. -/
def setQ (w : World) (qid : Nat) (q : Queue) : World :=
  { w with queues := w.queues.set qid (some q) }

/-- Free a queue slot (free(queue)). -/
def freeQ (w : World) (qid : Nat) : World :=
  { w with queues := w.queues.set qid none }

/-- Read a queue set slot. -/
def getS (w : World) (sid : Nat) : Option QSet :=
  w.qsets[sid]?

/-- Overwrite a queue set slot. -/
def setS (w : World) (sid : Nat) (s : QSet) : World :=
  { w with qsets := w.qsets.set sid s }

/-- Atomic add into a set aggregate counter
(atomic_add_fetch_32 / atomic_sub_fetch_32 on qset->numOfItems). -/
def bumpSetItems (w : World) (sid : Nat) (d : Int) : World :=
  match getS w sid with
  | none => w
  | some s => setS w sid { s with numOfItems := s.numOfItems + d }

/-- taosOpenQueue (lines 51-63): allocate a zeroed queue with the given item
size; the new slot id is returned.  (The calloc failure path creates
nothing; the claims only use the success path.) -/
def taosOpenQueue (w : World) (itemSize : Nat) : World × Nat :=
  ({ w with queues := w.queues ++
      [some { itemSize := itemSize, chain := [], tailSet := false,
              numOfItems := 0, qset := none }] },
   w.queues.length)

/-- taosWriteQitem (lines 86-113): allocate a node (allocOk = false models
calloc failure, returning -1 before any mutation), copy the item, link it at
the tail (or install it as head and tail when the tail pointer is NULL),
increment the queue count and, when the queue is set bound, atomically
increment the aggregate of that set. -/
def taosWriteQitem (w : World) (qid : Nat) (item : Nat) (allocOk : Bool) :
    World × Int :=
  if allocOk = false then (w, -1)
  else
    match getQ w qid with
    | none => (w, 0)
    | some q =>
      let q' : Queue :=
        if q.tailSet then
          { q with chain := q.chain ++ [item], numOfItems := q.numOfItems + 1 }
        else
          { q with chain := [item], tailSet := true,
                   numOfItems := q.numOfItems + 1 }
      let w1 := setQ w qid q'
      let w2 :=
        match q.qset with
        | some sid => bumpSetItems w1 sid 1
        | none => w1
      (w2, 0)

/-- taosReadQitem (lines 115-137): when the head exists, copy its payload
out, unlink and free it, set the tail pointer to NULL when the chain became
empty, decrement the count and, when set bound, the aggregate of that set;
the return code is 1 on a hit and 0 on an empty queue. -/
def taosReadQitem (w : World) (qid : Nat) : World × Int × Option Nat :=
  match getQ w qid with
  | none => (w, 0, none)
  | some q =>
    match q.chain with
    | [] => (w, 0, none)
    | x :: rest =>
      let q' : Queue :=
        { q with chain := rest,
                 tailSet := if rest = [] then false else q.tailSet,
                 numOfItems := q.numOfItems - 1 }
      let w1 := setQ w qid q'
      let w2 :=
        match q.qset with
        | some sid => bumpSetItems w1 sid (-1)
        | none => w1
      (w2, 1, some x)

/-- taosReadAllQitems (lines 139-169): when the queue is non empty, allocate
a batch view (allocOk = false models the calloc failure: return -1 and touch
nothing), hand it the whole chain and the counts, reset the queue to empty
and, when set bound, subtract the detached count from the aggregate; the
return code is the number of items moved, 0 on an empty queue. -/
def taosReadAllQitems (w : World) (qid : Nat) (allocOk : Bool) :
    World × Int × Option QAll :=
  match getQ w qid with
  | none => (w, 0, none)
  | some q =>
    match q.chain with
    | [] => (w, 0, none)
    | _ :: _ =>
      if allocOk = false then (w, -1, none)
      else
        let qall : QAll := { allItems := q.chain, pos := 0,
                             itemSize := q.itemSize, numOfItems := q.numOfItems }
        let q' : Queue := { q with chain := [], tailSet := false, numOfItems := 0 }
        let w1 := setQ w qid q'
        let w2 :=
          match q.qset with
          | some sid => bumpSetItems w1 sid (-q.numOfItems)
          | none => w1
        (w2, q.numOfItems, some qall)

/-- taosGetQitem (lines 171-186): when the cursor node exists, advance the
cursor and copy the payload out (return 1); otherwise return 0 with nothing
written and nothing changed. -/
def taosGetQitem (a : QAll) : QAll × Int × Option Nat :=
  match a.allItems.drop a.pos with
  | [] => (a, 0, none)
  | x :: _ => ({ a with pos := a.pos + 1 }, 1, some x)

/-- taosResetQitems (lines 188-191): rewind the cursor to the start node. -/
def taosResetQitems (a : QAll) : QAll :=
  { a with pos := 0 }

/-- taosOpenQset (lines 206-217): allocate a zeroed queue set; the new slot
id is returned. -/
def taosOpenQset (w : World) : World × Nat :=
  ({ w with qsets := w.qsets ++
      [{ members := [], current := none, numOfQueues := 0, numOfItems := 0 }] },
   w.qsets.length)

/-- taosAddIntoQset (lines 224-244): reject with -1 when queue->qset is
already set; otherwise prepend the queue to the member list, increment the
queue count, add the queue item count into the aggregate and record the set
reference on the queue. -/
def taosAddIntoQset (w : World) (sid : Nat) (qid : Nat) : World × Int :=
  match getQ w qid with
  | none => (w, 0)
  | some q =>
    if q.qset.isSome then (w, -1)
    else
      match getS w sid with
      | none => (w, 0)
      | some s =>
        let s' : QSet := { s with members := qid :: s.members,
                                  numOfQueues := s.numOfQueues + 1,
                                  numOfItems := s.numOfItems + q.numOfItems }
        let w1 := setS w sid s'
        let w2 := setQ w1 qid { q with qset := some sid }
        (w2, 0)

/-- The C pointer queue->next of a member queue: the member id that follows
the first occurrence of q in the member list, none at the list end.  (In a
well formed heap the threaded next pointers agree with the member list
order, so this is exact.) -/
def nextAfter : List Nat → Nat → Option Nat
  | [], _ => none
  | x :: rest, q => if x = q then rest.head? else nextAfter rest q

/-- While loop of taosRemoveFromQset (lines 261-275), walking prev/tqueue
over the member list: processed holds the ids before tqueue, rest the ids
from tqueue on.  On a match the body unlinks tqueue from the heap list,
fixes the cursor when it pointed at the removed queue, decrements the queue
count, subtracts the queue item count from the aggregate and clears
queue->qset — but does NOT advance tqueue, so the loop body runs again on
the same rest forever; fuel exhaustion (result none) models that
divergence.  On a mismatch prev and tqueue advance. -/
def removeLoop (sid qid : Nat) : Nat → World → List Nat → List Nat → Option World
  | _, w, _, [] => some w
  | 0, _, _, _ :: _ => none
  | fuel + 1, w, processed, tq :: rs =>
    if tq = qid then
      let w1 :=
        match getS w sid with
        | none => w
        | some s =>
          setS w sid
            { s with members := processed ++ rs,
                     current := if s.current = some qid then rs.head? else s.current,
                     numOfQueues := s.numOfQueues - 1,
                     numOfItems := s.numOfItems -
                       (match getQ w qid with
                        | some q => q.numOfItems
                        | none => 0) }
      let w2 :=
        match getQ w1 qid with
        | none => w1
        | some q => setQ w1 qid { q with qset := none }
      removeLoop sid qid fuel w2 processed (tq :: rs)
    else
      removeLoop sid qid fuel w (processed ++ [tq]) rs

/-- taosRemoveFromQset (lines 246-280).  Head case (lines 255-257): the code
only unlinks the head and decrements the queue count — it does not subtract
the queue item count from the aggregate, does not clear queue->qset and does
not fix the cursor.  Non head case: the scan loop removeLoop, which diverges
when the queue occurs in the tail of the member list. -/
def taosRemoveFromQset (fuel : Nat) (w : World) (sid qid : Nat) : Option World :=
  match getS w sid with
  | none => some w
  | some s =>
    match s.members with
    | [] => some w
    | h :: t =>
      if h = qid then
        some (setS w sid { s with members := t, numOfQueues := s.numOfQueues - 1 })
      else
        removeLoop sid qid fuel w [h] t

/-- taosCloseQueue (lines 65-84): queue->head is cleared first (the nodes to
free were saved in pNode); a set bound queue is then detached via
taosRemoveFromQset, the saved nodes are freed, and the queue memory is
released (slot becomes none). -/
def taosCloseQueue (fuel : Nat) (w : World) (qid : Nat) : Option World :=
  match getQ w qid with
  | none => some w
  | some q =>
    let w1 := setQ w qid { q with chain := [] }
    let w2? :=
      match q.qset with
      | some sid => taosRemoveFromQset fuel w1 sid qid
      | none => some w1
    match w2? with
    | none => none
    | some w2 => some (freeQ w2 qid)

/-- Cursor step of taosReadQitemFromQset (lines 292-298): wrap the cursor to
the member list head when NULL, pick the cursor queue, and advance the
cursor to its next pointer (regardless of whether the pick will hit). -/
def pollOneStep (w : World) (sid : Nat) : World × Option Nat :=
  match getS w sid with
  | none => (w, none)
  | some s =>
    let cur : Option Nat :=
      match s.current with
      | none => s.members.head?
      | some c => some c
    match cur with
    | none => (setS w sid { s with current := none }, none)
    | some qid => (setS w sid { s with current := nextAfter s.members qid }, some qid)

/-- Dequeue attempt of taosReadQitemFromQset (lines 300-314); the aggregate
subtraction (line 310) uses the qset argument unconditionally. -/
def pollDequeue (w : World) (sid : Nat) (qid : Nat) : World × Option Nat :=
  match getQ w qid with
  | none => (w, none)
  | some q =>
    match q.chain with
    | [] => (w, none)
    | x :: rest =>
      let q' : Queue :=
        { q with chain := rest,
                 tailSet := if rest = [] then false else q.tailSet,
                 numOfItems := q.numOfItems - 1 }
      (bumpSetItems (setQ w qid q') sid (-1), some x)

/-- For loop of taosReadQitemFromQset (lines 291-316): at most numOfQueues
iterations; leave with 0 when the visited queue pointer is NULL, with 1 when
a dequeue hit. -/
def pollLoop (sid : Nat) : Nat → World → World × Int × Option Nat
  | 0, w => (w, 0, none)
  | n + 1, w =>
    let step := pollOneStep w sid
    match step.2 with
    | none => (step.1, 0, none)
    | some qid =>
      let dq := pollDequeue step.1 sid qid
      match dq.2 with
      | some x => (dq.1, 1, some x)
      | none => pollLoop sid n dq.1

/-- taosReadQitemFromQset (lines 286-319). -/
def taosReadQitemFromQset (w : World) (sid : Nat) : World × Int × Option Nat :=
  match getS w sid with
  | none => (w, 0, none)
  | some s => pollLoop sid s.numOfQueues.toNat w

/-- Drain attempt of taosReadAllQitemsFromQset (lines 336-357): like
taosReadAllQitems but the aggregate subtraction (line 353) uses the qset
argument unconditionally. -/
def drainDequeue (w : World) (sid : Nat) (qid : Nat) (allocOk : Bool) :
    World × Int × Option QAll :=
  match getQ w qid with
  | none => (w, 0, none)
  | some q =>
    match q.chain with
    | [] => (w, 0, none)
    | _ :: _ =>
      if allocOk = false then (w, -1, none)
      else
        let qall : QAll := { allItems := q.chain, pos := 0,
                             itemSize := q.itemSize, numOfItems := q.numOfItems }
        let q' : Queue := { q with chain := [], tailSet := false, numOfItems := 0 }
        (bumpSetItems (setQ w qid q') sid (-q.numOfItems), q.numOfItems, some qall)

/-- For loop of taosReadAllQitemsFromQset (lines 327-360): same cursor walk
as pollLoop; leave when the drain attempt produced a nonzero code. -/
def drainLoop (sid : Nat) (allocOk : Bool) : Nat → World → World × Int × Option QAll
  | 0, w => (w, 0, none)
  | n + 1, w =>
    let step := pollOneStep w sid
    match step.2 with
    | none => (step.1, 0, none)
    | some qid =>
      let dq := drainDequeue step.1 sid qid allocOk
      if dq.2.1 = 0 then drainLoop sid allocOk n dq.1
      else dq

/-- taosReadAllQitemsFromQset (lines 321-365). -/
def taosReadAllQitemsFromQset (w : World) (sid : Nat) (allocOk : Bool) :
    World × Int × Option QAll :=
  match getS w sid with
  | none => (w, 0, none)
  | some s => drainLoop sid allocOk s.numOfQueues.toNat w

/-- taosGetQueueItemsNumber (lines 367-370). -/
def taosGetQueueItemsNumber (w : World) (qid : Nat) : Int :=
  match getQ w qid with
  | some q => q.numOfItems
  | none => 0

/-- taosGetQueueNumber (lines 282-284). -/
def taosGetQueueNumber (w : World) (sid : Nat) : Int :=
  match getS w sid with
  | some s => s.numOfQueues
  | none => 0

/-- taosGetQsetItemsNumber (lines 372-375). -/
def taosGetQsetItemsNumber (w : World) (sid : Nat) : Int :=
  match getS w sid with
  | some s => s.numOfItems
  | none => 0

/-! Derived iteration helpers used to state the claims. -/

/-- Enqueue a list of items in order on one queue (all node allocations
succeed). -/
def writeAll (w : World) (qid : Nat) : List Nat → World
  | [] => w
  | x :: xs => writeAll (taosWriteQitem w qid x true).1 qid xs

/-- Call taosReadQitem n times, collecting the items returned; stops early
on the first miss. -/
def readSeq : Nat → World → Nat → World × List Nat
  | 0, w, _ => (w, [])
  | n + 1, w, qid =>
    match taosReadQitem w qid with
    | (w1, _, some x) =>
      let rest := readSeq n w1 qid
      (rest.1, x :: rest.2)
    | (w1, _, none) => (w1, [])

/-- Call taosGetQitem n times on a batch view, collecting the items
returned; stops early on the first miss. -/
def getSeq : Nat → QAll → QAll × List Nat
  | 0, a => (a, [])
  | n + 1, a =>
    match taosGetQitem a with
    | (a1, _, some x) =>
      let rest := getSeq n a1
      (rest.1, x :: rest.2)
    | (a1, _, none) => (a1, [])

/-- Call taosReadQitemFromQset n times, collecting the (code, item) pairs. -/
def pollCalls : Nat → World → Nat → World × List (Int × Option Nat)
  | 0, w, _ => (w, [])
  | n + 1, w, sid =>
    let r := taosReadQitemFromQset w sid
    let rest := pollCalls n r.1 sid
    (rest.1, (r.2.1, r.2.2) :: rest.2)

/-! Invariants. -/

/-- Structural well formedness of one queue: the item count equals the
chain length and the tail pointer is non NULL exactly when the chain is non
empty.  (This is the inductive strengthening of the spec invariant
(head = NULL iff tail = NULL iff count = 0).) -/
def Queue.wf (q : Queue) : Prop :=
  q.numOfItems = (q.chain.length : Int) ∧ (q.tailSet = true ↔ q.chain ≠ [])

instance (q : Queue) : Decidable q.wf := by
  unfold Queue.wf
  infer_instance

/-- Every allocated queue of the world is well formed.  (Stated over the
slot list so that it is decidable on concrete worlds.) -/
def wfQueues (w : World) : Prop :=
  ∀ oq ∈ w.queues, ∀ q, oq = some q → q.wf

instance (oq : Option Queue) : Decidable (∀ q, oq = some q → q.wf) :=
  match oq with
  | none => isTrue fun _ h => Option.noConfusion h
  | some q0 =>
    decidable_of_iff q0.wf
      ⟨fun h _ hq => (Option.some.inj hq) ▸ h, fun h => h q0 rfl⟩

instance (w : World) : Decidable (wfQueues w) :=
  List.decidableBAll _ w.queues

/-- The spec invariant of claim C9 on one queue: head NULL iff tail NULL
iff item count zero. -/
def Queue.inv3 (q : Queue) : Prop :=
  (q.chain.head? = none ↔ q.tailSet = false) ∧
  (q.chain.head? = none ↔ q.numOfItems = 0)

/-- Sum of the item counts of the member queues of a set. -/
def memberItemsSum (w : World) (s : QSet) : Int :=
  (s.members.map fun qid =>
    match getQ w qid with
    | some q => q.numOfItems
    | none => 0).sum

/-- Conservation at one set: the aggregate equals the member sum. -/
def conservation (w : World) (sid : Nat) : Prop :=
  ∀ s, getS w sid = some s → s.numOfItems = memberItemsSum w s

instance (w : World) (sid : Nat) : Decidable (conservation w sid) := by
  unfold conservation
  exact decidable_of_iff
    (∀ s ∈ (getS w sid).toList, s.numOfItems = memberItemsSum w s)
    (by simp)

/-- The round robin cursor, viewed as a position in the member list: a NULL
cursor stands for position 0 (the next wrap lands on the head), and a non
NULL cursor stands for the position it occupies. -/
def cursorAt (qs : List Nat) (cur : Option Nat) (p : Nat) : Prop :=
  match cur with
  | none => p = 0
  | some c => qs[p]? = some c

/-- The effect of one successful dequeue (taosReadQitem lines 122-131 /
taosReadQitemFromQset lines 302-311) on the queue record. -/
def dequeueOne (q : Queue) : Queue :=
  { q with chain := q.chain.tail,
           tailSet := if q.chain.tail = [] then false else q.tailSet,
           numOfItems := q.numOfItems - 1 }

/-- The effect of one enqueue (taosWriteQitem lines 99-107) on the queue
record. -/
def enqueuedQ (q : Queue) (item : Nat) : Queue :=
  if q.tailSet then
    { q with chain := q.chain ++ [item], numOfItems := q.numOfItems + 1 }
  else
    { q with chain := [item], tailSet := true, numOfItems := q.numOfItems + 1 }

/-! Concrete example worlds used by the closed evaluation theorems and the
witnesses. -/

/-- The empty heap. -/
def wEmpty : World := ⟨[], []⟩

/-- One fresh queue of item size 4, id 0. -/
def wOneQueue : World := (taosOpenQueue wEmpty 4).1

/-- One set (id 0) with one member queue (id 0, the list head) holding one
item, so the aggregate is 1. -/
def wSetOneItem : World :=
  (taosWriteQitem (taosAddIntoQset (taosOpenQueue (taosOpenQset wEmpty).1 4).1 0 0).1
    0 42 true).1

/-- One set (id 0) with two member queues: queue 1 is the member list head,
queue 0 (added first) is the non head member.  Both queues are empty. -/
def wSetPair : World :=
  (taosAddIntoQset
    (taosOpenQueue
      ((taosAddIntoQset (taosOpenQueue (taosOpenQset wEmpty).1 4).1 0 0).1) 4).1
    0 1).1

/-- wSetPair with one item in each member queue. -/
def wSetPairItems : World :=
  (taosWriteQitem (taosWriteQitem wSetPair 0 7 true).1 1 8 true).1

/-- wSetPair with one item in queue 0 only: queue 1 (the member list head,
hence the first queue a fresh cursor visits) stays empty, so a poll must
miss once before it hits queue 0. -/
def wSetMixed : World := (taosWriteQitem wSetPair 0 7 true).1

/-- The queue at cyclic visit position i of the scan that starts at member
position p exists and is non empty (Bool so that the first hit position is
computable). -/
def hitAtPos (w : World) (qs : List Nat) (p i : Nat) : Bool :=
  match qs[(p + i) % qs.length]? with
  | none => false
  | some qid =>
    match getQ w qid with
    | none => false
    | some q => !q.chain.isEmpty

/-! Basic heap access lemmas. -/

theorem list_getElem?_set {α : Type} (l : List α) (i j : Nat) (a : α) :
    (l.set i a)[j]? = if i = j ∧ i < l.length then some a else l[j]? := by
  induction l generalizing i j with
  | nil => simp
  | cons x t ih =>
    cases i with
    | zero =>
      cases j with
      | zero => simp
      | succ j => simp
    | succ i =>
      cases j with
      | zero => simp
      | succ j =>
        simp only [List.set_cons_succ, List.getElem?_cons_succ, ih,
          List.length_cons]
        by_cases hij : i = j
        · subst hij
          by_cases hl : i < t.length
          · simp [hl, Nat.succ_lt_succ hl]
          · simp [hl, fun h => hl (Nat.lt_of_succ_lt_succ h)]
        · simp [hij, fun h : i + 1 = j + 1 => hij (Nat.succ_injective h)]

theorem getQ_some_lt {w : World} {qid : Nat} {q : Queue}
    (h : getQ w qid = some q) : qid < w.queues.length := by
  unfold getQ at h
  by_contra hn
  rw [List.getElem?_eq_none (Nat.le_of_not_lt hn)] at h
  exact Option.noConfusion h

theorem getQ_setQ {w : World} {qid qid2 : Nat} {q : Queue} :
    getQ (setQ w qid q) qid2 =
      if qid = qid2 ∧ qid < w.queues.length then some q else getQ w qid2 := by
  unfold getQ setQ
  simp only [list_getElem?_set]
  by_cases h : qid = qid2 ∧ qid < w.queues.length
  · rw [if_pos h, if_pos h]
  · rw [if_neg h, if_neg h]

theorem getQ_setQ_self {w : World} {qid : Nat} {q0 q : Queue}
    (h : getQ w qid = some q0) : getQ (setQ w qid q) qid = some q := by
  rw [getQ_setQ]
  simp [getQ_some_lt h]

theorem getQ_setS {w : World} {sid : Nat} {s : QSet} {qid : Nat} :
    getQ (setS w sid s) qid = getQ w qid := rfl

theorem getQ_bumpSetItems {w : World} {sid : Nat} {d : Int} {qid : Nat} :
    getQ (bumpSetItems w sid d) qid = getQ w qid := by
  unfold bumpSetItems
  cases getS w sid <;> rfl

theorem getS_setQ {w : World} {qid : Nat} {q : Queue} {sid : Nat} :
    getS (setQ w qid q) sid = getS w sid := rfl

theorem getS_some_lt {w : World} {sid : Nat} {s : QSet}
    (h : getS w sid = some s) : sid < w.qsets.length := by
  unfold getS at h
  by_contra hn
  rw [List.getElem?_eq_none (Nat.le_of_not_lt hn)] at h
  exact Option.noConfusion h

theorem getS_setS {w : World} {sid sid2 : Nat} {s : QSet} :
    getS (setS w sid s) sid2 =
      if sid = sid2 ∧ sid < w.qsets.length then some s else getS w sid2 := by
  unfold getS setS
  simp only [list_getElem?_set]

theorem getS_setS_self {w : World} {sid : Nat} {s0 s : QSet}
    (h : getS w sid = some s0) : getS (setS w sid s) sid = some s := by
  rw [getS_setS]
  simp [getS_some_lt h]

theorem getS_bumpSetItems_self {w : World} {sid : Nat} {s : QSet} {d : Int}
    (h : getS w sid = some s) :
    getS (bumpSetItems w sid d) sid =
      some { s with numOfItems := s.numOfItems + d } := by
  unfold bumpSetItems
  rw [h]
  exact getS_setS_self h

/-- The scan loop of taosRemoveFromQset never returns once the sought queue
is in the remaining segment: on a match the loop body does not advance
tqueue, so the match fires again forever, whatever the fuel. -/
theorem removeLoop_stuck (sid qid : Nat) :
    ∀ (fuel : Nat) (w : World) (processed rest : List Nat),
      qid ∈ rest → removeLoop sid qid fuel w processed rest = none := by
  intro fuel
  induction fuel with
  | zero =>
    intro w processed rest hm
    cases rest with
    | nil => cases hm
    | cons tq rs => rfl
  | succ n ih =>
    intro w processed rest hm
    cases rest with
    | nil => cases hm
    | cons tq rs =>
      unfold removeLoop
      by_cases h : tq = qid
      · rw [if_pos h]
        exact ih _ _ _ hm
      · rw [if_neg h]
        apply ih
        cases hm with
        | head => exact absurd rfl h
        | tail _ h2 => exact h2

/-- C1: claimed conservation (aggregate = sum of member item counts after
any open/enqueue/dequeue/drain/add/remove sequence).  The code violates it:
after open set, open queue, add, enqueue one item, the invariant holds, but
removing that (head) member leaves the aggregate at 1 while the member sum
is 0, because the head branch of taosRemoveFromQset (lines 255-257) skips
the aggregate subtraction. -/
theorem c1_conservation_violated_by_remove :
    conservation wSetOneItem 0 ∧
    ((taosRemoveFromQset 10 wSetOneItem 0 0).map fun w5 =>
      (decide (conservation w5 0), taosGetQsetItemsNumber w5 0,
       (getS w5 0).map QSet.members)) = some (false, 1, some []) := by
  decide

/-- C2: claimed behaviour of remove.  Head case (queue is the first member,
here the only member, holding one item): the code unlinks the queue and
decrements the queue count, but leaves the aggregate at 1 (instead of
subtracting the item count) and leaves queue->qset pointing at the set
(instead of clearing it).  Non head case: the scan loop never advances past
the match, so remove never returns, whatever the fuel. -/
theorem c2_remove_head_not_detached :
    (((taosRemoveFromQset 10 wSetOneItem 0 0).map fun w5 =>
        ((getS w5 0).map fun s => (s.members, s.numOfQueues, s.numOfItems),
         (getQ w5 0).map Queue.qset)) =
      some (some ([], 0, 1), some (some 0))) ∧
    ∀ fuel, taosRemoveFromQset fuel wSetPair 0 0 = none := by
  refine ⟨by decide, fun fuel => ?_⟩
  exact removeLoop_stuck 0 0 fuel wSetPair [1] [0] (by decide)

/-- C3: claimed behaviour of close on a set bound queue.  With the queue as
head (sole) member holding one item, close detaches it (member count drops
to 0) and frees it, but the set aggregate stays at 1 instead of being
reduced by the remaining item count, since the detach goes through the
buggy head branch of taosRemoveFromQset.  For a non head member, close
never returns at all (the detach scan diverges). -/
theorem c3_close_aggregate_not_reduced :
    (((taosCloseQueue 10 wSetOneItem 0).map fun w6 =>
        (taosGetQsetItemsNumber w6 0, taosGetQueueNumber w6 0, getQ w6 0)) =
      some (1, 0, none)) ∧
    ∀ fuel, taosCloseQueue fuel wSetPair 0 = none := by
  refine ⟨by decide, fun fuel => ?_⟩
  have h1 : taosRemoveFromQset fuel (setQ wSetPair 0 ⟨4, [], false, 0, some 0⟩) 0 0
      = none :=
    removeLoop_stuck 0 0 fuel (setQ wSetPair 0 ⟨4, [], false, 0, some 0⟩) [1] [0]
      (by decide)
  show (match taosRemoveFromQset fuel (setQ wSetPair 0 ⟨4, [], false, 0, some 0⟩) 0 0 with
        | none => none
        | some w2 => some (freeQ w2 0)) = none
  rw [h1]

/-- C7: adding a queue that is already bound to a set (any target set,
including its own) is rejected with -1 and changes nothing: the returned
world is the argument world unchanged. -/
theorem c7_add_already_member (w : World) (sid1 sid2 qid : Nat) (q : Queue)
    (hq : getQ w qid = some q) (hb : q.qset = some sid1) :
    taosAddIntoQset w sid2 qid = (w, -1) := by
  simp [taosAddIntoQset, hq, hb]

/-- Witness for C7: queue 0 of wSetOneItem is bound to set 0; re-adding it
(into the same set) reports -1 and leaves the world unchanged. -/
theorem c7_add_already_member_witness :
    taosAddIntoQset wSetOneItem 0 0 = (wSetOneItem, -1) :=
  c7_add_already_member wSetOneItem 0 0 0 ⟨4, [42], true, 1, some 0⟩
    (by decide) (by decide)

/-- C8: allocation failures are reported with no observable side effect:
node allocation failure makes taosWriteQitem return -1 with the world
untouched, and batch view allocation failure on a non empty queue makes
taosReadAllQitems return -1 and a NULL view with the world untouched. -/
theorem c8_alloc_failure_no_side_effect :
    (∀ (w : World) (qid item : Nat),
      taosWriteQitem w qid item false = (w, -1)) ∧
    (∀ (w : World) (qid : Nat) (q : Queue), getQ w qid = some q →
      q.chain ≠ [] → taosReadAllQitems w qid false = (w, -1, none)) := by
  constructor
  · intro w qid item
    rfl
  · intro w qid q hq hne
    unfold taosReadAllQitems
    rw [hq]
    cases hc : q.chain with
    | nil => exact absurd hc hne
    | cons x rest => simp [hc]

/-- Witness for C8 at a concrete world: both failure paths, on the one
member queue of wSetOneItem (non empty chain [42]). -/
theorem c8_alloc_failure_no_side_effect_witness :
    taosWriteQitem wSetOneItem 0 9 false = (wSetOneItem, -1) ∧
    taosReadAllQitems wSetOneItem 0 false = (wSetOneItem, -1, none) :=
  ⟨c8_alloc_failure_no_side_effect.1 wSetOneItem 0 9,
   c8_alloc_failure_no_side_effect.2 wSetOneItem 0 ⟨4, [42], true, 1, some 0⟩
     (by decide) (by decide)⟩

/-! Computation lemmas for single queue operations on unbound queues. -/

theorem getQ_openQueue (w : World) (sz : Nat) :
    getQ (taosOpenQueue w sz).1 (taosOpenQueue w sz).2 =
      some ⟨sz, [], false, 0, none⟩ := by
  unfold taosOpenQueue getQ
  simp

theorem taosWriteQitem_unbound {w : World} {qid : Nat} {q : Queue} (item : Nat)
    (hq : getQ w qid = some q) (hwf : q.wf) (hqs : q.qset = none) :
    taosWriteQitem w qid item true =
      (setQ w qid ⟨q.itemSize, q.chain ++ [item], true, q.numOfItems + 1, none⟩,
       0) := by
  obtain ⟨sz, ch, ts, n, os⟩ := q
  simp only at hqs
  subst hqs
  cases ts with
  | false =>
    have hch : ch = [] := by
      rcases hwf with ⟨_, h2⟩
      by_contra hne
      exact Bool.false_ne_true (h2.mpr hne)
    subst hch
    simp [taosWriteQitem, hq]
  | true =>
    simp [taosWriteQitem, hq]

theorem taosReadQitem_unbound {w : World} {qid : Nat} {q : Queue}
    {x : Nat} {rest : List Nat} (hq : getQ w qid = some q) (hqs : q.qset = none)
    (hch : q.chain = x :: rest) :
    taosReadQitem w qid =
      (setQ w qid ⟨q.itemSize, rest, if rest = [] then false else q.tailSet,
        q.numOfItems - 1, none⟩, 1, some x) := by
  obtain ⟨sz, ch, ts, n, os⟩ := q
  simp only at hqs hch
  subst hqs
  subst hch
  simp [taosReadQitem, hq]

theorem taosReadQitem_empty {w : World} {qid : Nat} {q : Queue}
    (hq : getQ w qid = some q) (hch : q.chain = []) :
    taosReadQitem w qid = (w, 0, none) := by
  simp [taosReadQitem, hq, hch]

theorem getQ_writeAll (xs : List Nat) :
    ∀ (w : World) (qid : Nat) (q : Queue), getQ w qid = some q → q.wf →
      q.qset = none →
      getQ (writeAll w qid xs) qid =
        some ⟨q.itemSize, q.chain ++ xs, q.tailSet || !xs.isEmpty,
              q.numOfItems + xs.length, none⟩ := by
  induction xs with
  | nil =>
    intro w qid q hq hwf hqs
    obtain ⟨sz, ch, ts, n, os⟩ := q
    simp only at hqs
    subst hqs
    simpa [writeAll] using hq
  | cons x xs ih =>
    intro w qid q hq hwf hqs
    rw [writeAll, taosWriteQitem_unbound x hq hwf hqs]
    have hq1 : getQ (setQ w qid
        ⟨q.itemSize, q.chain ++ [x], true, q.numOfItems + 1, none⟩) qid =
        some ⟨q.itemSize, q.chain ++ [x], true, q.numOfItems + 1, none⟩ :=
      getQ_setQ_self hq
    have hwf1 : Queue.wf ⟨q.itemSize, q.chain ++ [x], true, q.numOfItems + 1, none⟩ := by
      constructor
      · simp [hwf.1]
      · simp
    rw [ih _ _ _ hq1 hwf1 rfl]
    have hlist : (q.chain ++ [x]) ++ xs = q.chain ++ x :: xs := by simp
    have hbool : (true || !xs.isEmpty) = (q.tailSet || !(x :: xs).isEmpty) := by simp
    have hnum : q.numOfItems + 1 + (xs.length : Int) =
        q.numOfItems + ((x :: xs).length : Int) := by
      simp only [List.length_cons]
      push_cast
      ring
    rw [hlist, hbool, hnum]

theorem readSeq_spec (n : Nat) :
    ∀ (w : World) (qid : Nat) (q : Queue), getQ w qid = some q → q.wf →
      q.qset = none →
      (readSeq n w qid).2 = q.chain.take n ∧
      getQ (readSeq n w qid).1 qid =
        some ⟨q.itemSize, q.chain.drop n, !(q.chain.drop n).isEmpty,
              ((q.chain.drop n).length : Int), none⟩ := by
  induction n with
  | zero =>
    intro w qid q hq hwf hqs
    obtain ⟨sz, ch, ts, n0, os⟩ := q
    simp only at hqs
    subst hqs
    rcases hwf with ⟨h1, h2⟩
    simp only at h1
    constructor
    · rfl
    · show getQ w qid = _
      rw [hq]
      have hts : ts = !ch.isEmpty := by
        cases ts with
        | false =>
          have hch : ch = [] := by
            by_contra hne
            exact Bool.false_ne_true (h2.mpr hne)
          simp [hch]
        | true =>
          have hch : ch ≠ [] := h2.mp rfl
          simp [hch]
      simp only [List.drop_zero]
      rw [← hts, ← h1]
  | succ n ih =>
    intro w qid q hq hwf hqs
    cases hch : q.chain with
    | nil =>
      have hr : taosReadQitem w qid = (w, 0, none) := taosReadQitem_empty hq hch
      rw [readSeq, hr]
      obtain ⟨sz, ch, ts, n0, os⟩ := q
      simp only at hqs hch
      subst hqs
      subst hch
      rcases hwf with ⟨h1, h2⟩
      simp only [List.length_nil, Nat.cast_zero] at h1
      have hts : ts = false := by
        cases ts with
        | false => rfl
        | true => exact absurd (h2.mp rfl) (by simp)
      subst hts
      subst h1
      constructor
      · simp
      · simpa using hq
    | cons x rest =>
      have hr := taosReadQitem_unbound hq hqs hch
      rw [readSeq, hr]
      have hwf1 : Queue.wf ⟨q.itemSize, rest,
          if rest = [] then false else q.tailSet, q.numOfItems - 1, none⟩ := by
        constructor
        · have h1 := hwf.1
          rw [hch] at h1
          simp only [List.length_cons] at h1
          simp only
          omega
        · cases hrest : rest with
          | nil => simp
          | cons y t =>
            have hne : q.chain ≠ [] := by rw [hch]; exact List.cons_ne_nil x rest
            have ht := hwf.2.mpr hne
            simp [hrest, ht]
      have hq1 : getQ (setQ w qid ⟨q.itemSize, rest,
          if rest = [] then false else q.tailSet, q.numOfItems - 1, none⟩) qid =
          some ⟨q.itemSize, rest, if rest = [] then false else q.tailSet,
            q.numOfItems - 1, none⟩ :=
        getQ_setQ_self hq
      have hrec := ih _ _ _ hq1 hwf1 rfl
      simp only [List.take_succ_cons, List.drop_succ_cons]
      refine ⟨?_, hrec.2⟩
      show x :: (readSeq n (setQ w qid ⟨q.itemSize, rest,
          if rest = [] then false else q.tailSet, q.numOfItems - 1, none⟩) qid).2 =
        x :: List.take n rest
      exact congrArg (x :: ·) hrec.1

/-- C4: FIFO law.  On a freshly opened queue, after enqueuing any item
sequence with no interleaved dequeues, repeated dequeues return exactly that
sequence, and one further dequeue reports empty (code 0, no item).  In
particular, with itemSize 4 and items 0x01020304, 0x05060708, 0x090A0B0C,
three dequeues return those values in order and a fourth returns empty. -/
theorem c4_fifo (w : World) (sz : Nat) (items : List Nat) :
    (readSeq items.length
        (writeAll (taosOpenQueue w sz).1 (taosOpenQueue w sz).2 items)
        (taosOpenQueue w sz).2).2 = items ∧
    (taosReadQitem
        (readSeq items.length
          (writeAll (taosOpenQueue w sz).1 (taosOpenQueue w sz).2 items)
          (taosOpenQueue w sz).2).1 (taosOpenQueue w sz).2).2 = (0, none) ∧
    (readSeq 3 (writeAll wOneQueue 0 [0x01020304, 0x05060708, 0x090A0B0C]) 0).2 =
      [0x01020304, 0x05060708, 0x090A0B0C] ∧
    (taosReadQitem
        (readSeq 3 (writeAll wOneQueue 0 [0x01020304, 0x05060708, 0x090A0B0C]) 0).1
        0).2 = (0, none) := by
  have h0 := getQ_openQueue w sz
  have hwf0 : Queue.wf ⟨sz, [], false, 0, none⟩ := by
    constructor <;> simp
  have hA := getQ_writeAll items _ _ _ h0 hwf0 rfl
  have hwfA : Queue.wf ⟨sz, [] ++ items, false || !items.isEmpty,
      0 + (items.length : Int), none⟩ := by
    constructor
    · simp
    · cases items <;> simp
  have hB := readSeq_spec items.length _ _ _ hA hwfA rfl
  refine ⟨?_, ?_, by decide, by decide⟩
  · rw [hB.1]
    simp
  · have h4 := taosReadQitem_empty hB.2 (by simp)
    rw [h4]

/-! Batch view traversal lemmas. -/

theorem getSeq_spec (n : Nat) :
    ∀ (items : List Nat) (p sz : Nat) (c : Int), p ≤ items.length →
      getSeq n ⟨items, p, sz, c⟩ =
        (⟨items, min (p + n) items.length, sz, c⟩, (items.drop p).take n) := by
  induction n with
  | zero =>
    intro items p sz c hp
    simp [getSeq, Nat.min_eq_left hp]
  | succ n ih =>
    intro items p sz c hp
    rw [getSeq]
    cases hd : items.drop p with
    | nil =>
      have hpl : items.length ≤ p := List.drop_eq_nil_iff.mp hd
      have hpe : p = items.length := Nat.le_antisymm hp hpl
      have hg : taosGetQitem ⟨items, p, sz, c⟩ = (⟨items, p, sz, c⟩, 0, none) := by
        simp [taosGetQitem, hd]
      rw [hg]
      subst hpe
      simp [hd]
    | cons x t =>
      have hg : taosGetQitem ⟨items, p, sz, c⟩ = (⟨items, p + 1, sz, c⟩, 1, some x) := by
        simp [taosGetQitem, hd]
      rw [hg]
      have hplt : p < items.length := by
        by_contra hn
        rw [List.drop_eq_nil_of_le (Nat.le_of_not_lt hn)] at hd
        exact List.noConfusion hd
      show ((getSeq n ⟨items, p + 1, sz, c⟩).1,
            x :: (getSeq n ⟨items, p + 1, sz, c⟩).2) = _
      rw [ih items (p + 1) sz c hplt]
      have hdrop : items.drop (p + 1) = t := by
        have htl := List.tail_drop items p
        rw [hd] at htl
        exact htl.symm
      rw [hdrop]
      have hmin : min (p + 1 + n) items.length = min (p + (n + 1)) items.length := by
        omega
      rw [hmin]
      simp

theorem taosReadAllQitems_nonempty {w : World} {qid : Nat} {q : Queue}
    (hq : getQ w qid = some q) (hne : q.chain ≠ []) :
    taosReadAllQitems w qid true =
      (match q.qset with
       | some sid =>
          bumpSetItems (setQ w qid ⟨q.itemSize, [], false, 0, q.qset⟩) sid
            (-q.numOfItems)
       | none => setQ w qid ⟨q.itemSize, [], false, 0, q.qset⟩,
       q.numOfItems,
       some ⟨q.chain, 0, q.itemSize, q.numOfItems⟩) := by
  obtain ⟨sz, ch, ts, n0, os⟩ := q
  cases ch with
  | nil => exact absurd rfl hne
  | cons x rest =>
    cases os with
    | none => simp [taosReadAllQitems, hq]
    | some sid => simp [taosReadAllQitems, hq]

theorem taosReadAllQitems_empty {w : World} {qid : Nat} {q : Queue} (ok : Bool)
    (hq : getQ w qid = some q) (hch : q.chain = []) :
    taosReadAllQitems w qid ok = (w, 0, none) := by
  simp [taosReadAllQitems, hq, hch]

/-- C5: drain completeness.  On a queue holding N > 0 items, taosReadAllQitems
returns code N, zeroes the queue item count, subtracts N from the aggregate
of the set the queue is bound to (when bound), and hands back a batch view
that yields exactly the N items in FIFO order, then reports end; after
taosResetQitems a full second traversal yields the same N items; on an
empty queue the drain returns (unchanged world, 0, no view). -/
theorem c5_drain_completeness (w : World) (qid : Nat) (q : Queue)
    (hq : getQ w qid = some q) (hwf : q.wf) (hne : q.chain ≠ []) :
    (taosReadAllQitems w qid true).2.1 = (q.chain.length : Int) ∧
    taosGetQueueItemsNumber (taosReadAllQitems w qid true).1 qid = 0 ∧
    (∀ sid s, q.qset = some sid → getS w sid = some s →
      taosGetQsetItemsNumber (taosReadAllQitems w qid true).1 sid =
        s.numOfItems - (q.chain.length : Int)) ∧
    (taosReadAllQitems w qid true).2.2 =
      some ⟨q.chain, 0, q.itemSize, (q.chain.length : Int)⟩ ∧
    (getSeq q.chain.length ⟨q.chain, 0, q.itemSize, (q.chain.length : Int)⟩).2 =
      q.chain ∧
    (taosGetQitem
      (getSeq q.chain.length ⟨q.chain, 0, q.itemSize, (q.chain.length : Int)⟩).1).2 =
      (0, none) ∧
    (getSeq q.chain.length (taosResetQitems
      (getSeq q.chain.length ⟨q.chain, 0, q.itemSize, (q.chain.length : Int)⟩).1)).2 =
      q.chain ∧
    (∀ (w2 : World) (qid2 : Nat) (q2 : Queue) (ok : Bool),
      getQ w2 qid2 = some q2 → q2.chain = [] →
      taosReadAllQitems w2 qid2 ok = (w2, 0, none)) := by
  have hr := taosReadAllQitems_nonempty hq hne
  have hn0 : q.numOfItems = (q.chain.length : Int) := hwf.1
  have hA := getSeq_spec q.chain.length q.chain 0 q.itemSize
    ((q.chain.length : Int)) (Nat.zero_le _)
  have hgq : getQ (taosReadAllQitems w qid true).1 qid =
      some ⟨q.itemSize, [], false, 0, q.qset⟩ := by
    rw [hr]
    cases hqs : q.qset with
    | none => exact getQ_setQ_self hq
    | some sid =>
      show getQ (bumpSetItems _ _ _) qid = _
      rw [getQ_bumpSetItems]
      exact getQ_setQ_self hq
  refine ⟨?_, ?_, ?_, ?_, ?_, ?_, ?_, ?_⟩
  · rw [hr]
    exact hn0
  · unfold taosGetQueueItemsNumber
    rw [hgq]
  · intro sid s hqs hs
    rw [hr, hqs]
    show taosGetQsetItemsNumber
      (bumpSetItems (setQ w qid ⟨q.itemSize, [], false, 0, some sid⟩) sid
        (-q.numOfItems)) sid = _
    have hgs : getS (bumpSetItems (setQ w qid ⟨q.itemSize, [], false, 0, some sid⟩)
        sid (-q.numOfItems)) sid =
        some { s with numOfItems := s.numOfItems + (-q.numOfItems) } :=
      getS_bumpSetItems_self (by rw [getS_setQ]; exact hs)
    unfold taosGetQsetItemsNumber
    rw [hgs, hn0]
    ring
  · rw [hr]
    show some (⟨q.chain, 0, q.itemSize, q.numOfItems⟩ : QAll) = _
    rw [hn0]
  · rw [hA]
    simp
  · rw [hA]
    simp [taosGetQitem, List.drop_length]
  · rw [hA]
    show (getSeq q.chain.length
      ⟨q.chain, 0, q.itemSize, (q.chain.length : Int)⟩).2 = q.chain
    rw [hA]
    simp
  · intro w2 qid2 q2 ok hq2 hch2
    exact taosReadAllQitems_empty ok hq2 hch2

/-- Witness for C5 on the concrete world wSetOneItem: draining the one item
queue returns code 1. -/
theorem c5_drain_completeness_witness :
    (taosReadAllQitems wSetOneItem 0 true).2.1 = 1 := by
  have h := c5_drain_completeness wSetOneItem 0 ⟨4, [42], true, 1, some 0⟩
    (by decide) (by decide) (by decide)
  simpa using h.1

/-! Well formedness preservation lemmas for claim C9. -/

theorem wfQueues_getQ {w : World} {qid : Nat} {q : Queue}
    (hw : wfQueues w) (h : getQ w qid = some q) : q.wf := by
  unfold getQ at h
  cases hx : w.queues[qid]? with
  | none =>
    rw [hx] at h
    exact Option.noConfusion h
  | some oq =>
    rw [hx] at h
    cases oq with
    | none => exact Option.noConfusion h
    | some q0 =>
      have hmem : some q0 ∈ w.queues := List.getElem?_mem hx
      exact hw _ hmem _ h

theorem wfQueues_setQ {w : World} {qid : Nat} {q : Queue}
    (hw : wfQueues w) (hq : q.wf) : wfQueues (setQ w qid q) := by
  intro oq hmem q2 he
  rcases List.mem_or_eq_of_mem_set hmem with h | h
  · exact hw _ h _ he
  · subst h
    exact (Option.some.inj he) ▸ hq

theorem wfQueues_setS {w : World} {sid : Nat} {s : QSet} (hw : wfQueues w) :
    wfQueues (setS w sid s) := hw

theorem wfQueues_bumpSetItems {w : World} {sid : Nat} {d : Int}
    (hw : wfQueues w) : wfQueues (bumpSetItems w sid d) := by
  unfold bumpSetItems
  cases getS w sid with
  | none => exact hw
  | some s => exact wfQueues_setS hw

theorem wf_enqueued {q : Queue} (item : Nat) (hwf : q.wf) :
    Queue.wf (enqueuedQ q item) := by
  obtain ⟨sz, ch, ts, n0, os⟩ := q
  rcases hwf with ⟨h1, h2⟩
  simp only at h1 h2
  cases ts with
  | true =>
    refine ⟨?_, ?_⟩
    · simp [enqueuedQ, h1]
    · simp [enqueuedQ]
  | false =>
    have hch : ch = [] := by
      by_contra hne
      exact Bool.false_ne_true (h2.mpr hne)
    subst hch
    refine ⟨?_, ?_⟩
    · simp [enqueuedQ, h1]
    · simp [enqueuedQ]

theorem wf_dequeued {q : Queue} {x : Nat} {rest : List Nat}
    (hwf : q.wf) (hch : q.chain = x :: rest) :
    Queue.wf { q with chain := rest,
                      tailSet := if rest = [] then false else q.tailSet,
                      numOfItems := q.numOfItems - 1 } := by
  rcases hwf with ⟨h1, h2⟩
  constructor
  · rw [hch] at h1
    simp only [List.length_cons] at h1
    simp only
    omega
  · cases hrest : rest with
    | nil => simp
    | cons y t =>
      have hne : q.chain ≠ [] := by
        rw [hch]
        exact List.cons_ne_nil _ _
      have ht := h2.mpr hne
      simp [hrest, ht]

theorem wf_drained (q : Queue) :
    Queue.wf { q with chain := [], tailSet := false, numOfItems := 0 } := by
  constructor <;> simp

theorem taosWriteQitem_ok {w : World} {qid : Nat} {q : Queue} (item : Nat)
    (hq : getQ w qid = some q) :
    taosWriteQitem w qid item true =
      (match q.qset with
       | some sid => bumpSetItems (setQ w qid (enqueuedQ q item)) sid 1
       | none => setQ w qid (enqueuedQ q item), 0) := by
  obtain ⟨sz, ch, ts, n0, os⟩ := q
  cases os with
  | none => simp [taosWriteQitem, enqueuedQ, hq]
  | some sid => simp [taosWriteQitem, enqueuedQ, hq]

theorem taosReadQitem_hit {w : World} {qid : Nat} {q : Queue}
    {x : Nat} {rest : List Nat} (hq : getQ w qid = some q)
    (hch : q.chain = x :: rest) :
    taosReadQitem w qid =
      (match q.qset with
       | some sid =>
          bumpSetItems (setQ w qid ⟨q.itemSize, rest,
            if rest = [] then false else q.tailSet, q.numOfItems - 1, q.qset⟩)
            sid (-1)
       | none => setQ w qid ⟨q.itemSize, rest,
            if rest = [] then false else q.tailSet, q.numOfItems - 1, q.qset⟩,
       1, some x) := by
  obtain ⟨sz, ch, ts, n0, os⟩ := q
  simp only at hch
  subst hch
  cases os with
  | none => simp [taosReadQitem, hq]
  | some sid => simp [taosReadQitem, hq]

theorem taosReadAllQitems_allocFail {w : World} {qid : Nat} {q : Queue}
    (hq : getQ w qid = some q) (hne : q.chain ≠ []) :
    taosReadAllQitems w qid false = (w, -1, none) := by
  unfold taosReadAllQitems
  rw [hq]
  cases hc : q.chain with
  | nil => exact absurd hc hne
  | cons x rest => simp [hc]

theorem taosWriteQitem_invalid {w : World} {qid : Nat} (item : Nat)
    (hgq : getQ w qid = none) : taosWriteQitem w qid item true = (w, 0) := by
  simp [taosWriteQitem, hgq]

theorem taosReadQitem_invalid {w : World} {qid : Nat}
    (hgq : getQ w qid = none) : taosReadQitem w qid = (w, 0, none) := by
  simp [taosReadQitem, hgq]

theorem taosReadAllQitems_invalid {w : World} {qid : Nat} (ok : Bool)
    (hgq : getQ w qid = none) : taosReadAllQitems w qid ok = (w, 0, none) := by
  simp [taosReadAllQitems, hgq]

theorem wfQueues_write (w : World) (qid item : Nat) (ok : Bool)
    (hw : wfQueues w) : wfQueues (taosWriteQitem w qid item ok).1 := by
  cases ok with
  | false => exact hw
  | true =>
    cases hgq : getQ w qid with
    | none =>
      rw [taosWriteQitem_invalid item hgq]
      exact hw
    | some q =>
      rw [taosWriteQitem_ok item hgq]
      have hq' := wf_enqueued item (wfQueues_getQ hw hgq)
      cases hqs : q.qset with
      | none => exact wfQueues_setQ hw hq'
      | some sid => exact wfQueues_bumpSetItems (wfQueues_setQ hw hq')

theorem wfQueues_read (w : World) (qid : Nat) (hw : wfQueues w) :
    wfQueues (taosReadQitem w qid).1 := by
  cases hgq : getQ w qid with
  | none =>
    rw [taosReadQitem_invalid hgq]
    exact hw
  | some q =>
    cases hch : q.chain with
    | nil =>
      rw [taosReadQitem_empty hgq hch]
      exact hw
    | cons x rest =>
      rw [taosReadQitem_hit hgq hch]
      have hq' := wf_dequeued (wfQueues_getQ hw hgq) hch
      cases hqs : q.qset with
      | none =>
        rw [hqs] at hq'
        exact wfQueues_setQ hw hq'
      | some sid =>
        rw [hqs] at hq'
        exact wfQueues_bumpSetItems (wfQueues_setQ hw hq')

theorem wfQueues_readAll (w : World) (qid : Nat) (ok : Bool)
    (hw : wfQueues w) : wfQueues (taosReadAllQitems w qid ok).1 := by
  cases hgq : getQ w qid with
  | none =>
    rw [taosReadAllQitems_invalid ok hgq]
    exact hw
  | some q =>
    cases hch : q.chain with
    | nil =>
      rw [taosReadAllQitems_empty ok hgq hch]
      exact hw
    | cons x rest =>
      cases ok with
      | false =>
        rw [taosReadAllQitems_allocFail hgq (by rw [hch]; exact List.cons_ne_nil _ _)]
        exact hw
      | true =>
        rw [taosReadAllQitems_nonempty hgq (by rw [hch]; exact List.cons_ne_nil _ _)]
        have hq' : Queue.wf ⟨q.itemSize, [], false, 0, q.qset⟩ := by
          constructor <;> simp
        cases hqs : q.qset with
        | none =>
          rw [hqs] at hq'
          exact wfQueues_setQ hw hq'
        | some sid =>
          rw [hqs] at hq'
          exact wfQueues_bumpSetItems (wfQueues_setQ hw hq')

theorem wfQueues_pollOneStep (w : World) (sid : Nat) (hw : wfQueues w) :
    wfQueues (pollOneStep w sid).1 := by
  cases hgs : getS w sid with
  | none =>
    have h : pollOneStep w sid = (w, none) := by
      simp [pollOneStep, hgs]
    rw [h]
    exact hw
  | some s =>
    cases hc : s.current with
    | none =>
      cases hh : s.members.head? with
      | none =>
        have h : pollOneStep w sid = (setS w sid { s with current := none }, none) := by
          simp [pollOneStep, hgs, hc, hh]
        rw [h]
        exact wfQueues_setS hw
      | some qid =>
        have h : pollOneStep w sid =
            (setS w sid { s with current := nextAfter s.members qid }, some qid) := by
          simp [pollOneStep, hgs, hc, hh]
        rw [h]
        exact wfQueues_setS hw
    | some c =>
      have h : pollOneStep w sid =
          (setS w sid { s with current := nextAfter s.members c }, some c) := by
        simp [pollOneStep, hgs, hc]
      rw [h]
      exact wfQueues_setS hw

theorem wfQueues_pollDequeue (w : World) (sid qid : Nat) (hw : wfQueues w) :
    wfQueues (pollDequeue w sid qid).1 := by
  cases hgq : getQ w qid with
  | none =>
    have h : pollDequeue w sid qid = (w, none) := by
      simp [pollDequeue, hgq]
    rw [h]
    exact hw
  | some q =>
    cases hch : q.chain with
    | nil =>
      have h : pollDequeue w sid qid = (w, none) := by
        simp [pollDequeue, hgq, hch]
      rw [h]
      exact hw
    | cons x rest =>
      have h : pollDequeue w sid qid =
          (bumpSetItems (setQ w qid ⟨q.itemSize, rest,
            if rest = [] then false else q.tailSet, q.numOfItems - 1, q.qset⟩)
            sid (-1), some x) := by
        simp [pollDequeue, hgq, hch]
      rw [h]
      exact wfQueues_bumpSetItems
        (wfQueues_setQ hw (wf_dequeued (wfQueues_getQ hw hgq) hch))

theorem pollLoop_succ_break {sid : Nat} {w w1 : World} (n : Nat)
    (hps : pollOneStep w sid = (w1, none)) :
    pollLoop sid (n + 1) w = (w1, 0, none) := by
  simp [pollLoop, hps]

theorem pollLoop_succ_hit {sid : Nat} {w w1 w2 : World} {qid x : Nat} (n : Nat)
    (hps : pollOneStep w sid = (w1, some qid))
    (hdq : pollDequeue w1 sid qid = (w2, some x)) :
    pollLoop sid (n + 1) w = (w2, 1, some x) := by
  simp [pollLoop, hps, hdq]

theorem pollLoop_succ_miss {sid : Nat} {w w1 w2 : World} {qid : Nat} (n : Nat)
    (hps : pollOneStep w sid = (w1, some qid))
    (hdq : pollDequeue w1 sid qid = (w2, none)) :
    pollLoop sid (n + 1) w = pollLoop sid n w2 := by
  simp only [pollLoop, hps, hdq]

theorem wfQueues_pollLoop (sid : Nat) :
    ∀ (fuel : Nat) (w : World), wfQueues w → wfQueues (pollLoop sid fuel w).1 := by
  intro fuel
  induction fuel with
  | zero =>
    intro w hw
    exact hw
  | succ n ih =>
    intro w hw
    rcases hps : pollOneStep w sid with ⟨w1, oq⟩
    have hw1 : wfQueues w1 := by
      have h := wfQueues_pollOneStep w sid hw
      rw [hps] at h
      exact h
    cases oq with
    | none =>
      rw [pollLoop_succ_break n hps]
      exact hw1
    | some qid =>
      rcases hdq : pollDequeue w1 sid qid with ⟨w2, ox⟩
      have hw2 : wfQueues w2 := by
        have h := wfQueues_pollDequeue w1 sid qid hw1
        rw [hdq] at h
        exact h
      cases ox with
      | some x =>
        rw [pollLoop_succ_hit n hps hdq]
        exact hw2
      | none =>
        rw [pollLoop_succ_miss n hps hdq]
        exact ih _ hw2

theorem wfQueues_drainDequeue (w : World) (sid qid : Nat) (ok : Bool)
    (hw : wfQueues w) : wfQueues (drainDequeue w sid qid ok).1 := by
  cases hgq : getQ w qid with
  | none =>
    have h : drainDequeue w sid qid ok = (w, 0, none) := by
      simp [drainDequeue, hgq]
    rw [h]
    exact hw
  | some q =>
    cases hch : q.chain with
    | nil =>
      have h : drainDequeue w sid qid ok = (w, 0, none) := by
        simp [drainDequeue, hgq, hch]
      rw [h]
      exact hw
    | cons x rest =>
      cases ok with
      | false =>
        have h : drainDequeue w sid qid false = (w, -1, none) := by
          simp [drainDequeue, hgq, hch]
        rw [h]
        exact hw
      | true =>
        have h : drainDequeue w sid qid true =
            (bumpSetItems (setQ w qid ⟨q.itemSize, [], false, 0, q.qset⟩) sid
              (-q.numOfItems), q.numOfItems,
             some ⟨q.chain, 0, q.itemSize, q.numOfItems⟩) := by
          simp [drainDequeue, hgq, hch]
        rw [h]
        have hq' : Queue.wf ⟨q.itemSize, [], false, 0, q.qset⟩ := by
          constructor <;> simp
        exact wfQueues_bumpSetItems (wfQueues_setQ hw hq')

theorem drainLoop_succ_break {sid : Nat} {ok : Bool} {w w1 : World} (n : Nat)
    (hps : pollOneStep w sid = (w1, none)) :
    drainLoop sid ok (n + 1) w = (w1, 0, none) := by
  simp [drainLoop, hps]

theorem drainLoop_succ_cont {sid : Nat} {ok : Bool} {w w1 w2 : World}
    {qid : Nat} {oa : Option QAll} (n : Nat)
    (hps : pollOneStep w sid = (w1, some qid))
    (hdq : drainDequeue w1 sid qid ok = (w2, 0, oa)) :
    drainLoop sid ok (n + 1) w = drainLoop sid ok n w2 := by
  simp [drainLoop, hps, hdq]

theorem drainLoop_succ_leave {sid : Nat} {ok : Bool} {w w1 w2 : World}
    {qid : Nat} {code : Int} {oa : Option QAll} (n : Nat)
    (hps : pollOneStep w sid = (w1, some qid))
    (hdq : drainDequeue w1 sid qid ok = (w2, code, oa)) (hc : code ≠ 0) :
    drainLoop sid ok (n + 1) w = (w2, code, oa) := by
  simp only [drainLoop, hps, hdq]
  rw [if_neg hc]

theorem wfQueues_drainLoop (sid : Nat) (ok : Bool) :
    ∀ (fuel : Nat) (w : World), wfQueues w →
      wfQueues (drainLoop sid ok fuel w).1 := by
  intro fuel
  induction fuel with
  | zero =>
    intro w hw
    exact hw
  | succ n ih =>
    intro w hw
    rcases hps : pollOneStep w sid with ⟨w1, oq⟩
    have hw1 : wfQueues w1 := by
      have h := wfQueues_pollOneStep w sid hw
      rw [hps] at h
      exact h
    cases oq with
    | none =>
      rw [drainLoop_succ_break n hps]
      exact hw1
    | some qid =>
      rcases hdq : drainDequeue w1 sid qid ok with ⟨w2, code, oa⟩
      have hw2 : wfQueues w2 := by
        have h := wfQueues_drainDequeue w1 sid qid ok hw1
        rw [hdq] at h
        exact h
      by_cases hc : code = 0
      · subst hc
        rw [drainLoop_succ_cont n hps hdq]
        exact ih _ hw2
      · rw [drainLoop_succ_leave n hps hdq hc]
        exact hw2

/-! Round robin lemmas for claim C6. -/

theorem cursorAt_lt {qs : List Nat} {cur : Option Nat} {p : Nat}
    (h : cursorAt qs cur p) (hne : qs ≠ []) : p < qs.length := by
  cases cur with
  | none =>
    have hp : p = 0 := h
    subst hp
    exact List.length_pos.mpr hne
  | some c =>
    have hp : qs[p]? = some c := h
    by_contra hn
    rw [List.getElem?_eq_none (Nat.le_of_not_lt hn)] at hp
    exact Option.noConfusion hp

theorem cursorAt_succ {qs : List Nat} {p : Nat} (h : p < qs.length) :
    cursorAt qs qs[p + 1]? ((p + 1) % qs.length) := by
  by_cases h1 : p + 1 < qs.length
  · rw [Nat.mod_eq_of_lt h1]
    obtain ⟨c, hc⟩ : ∃ c, qs[p + 1]? = some c :=
      ⟨qs[p + 1], List.getElem?_eq_getElem h1⟩
    rw [hc]
    exact hc
  · have he : p + 1 = qs.length := by omega
    rw [List.getElem?_eq_none (by omega)]
    show (p + 1) % qs.length = 0
    rw [he, Nat.mod_self]

theorem nextAfter_mem {l : List Nat} {a b : Nat}
    (h : nextAfter l a = some b) : b ∈ l := by
  induction l with
  | nil => exact Option.noConfusion h
  | cons x t ih =>
    unfold nextAfter at h
    by_cases hx : x = a
    · rw [if_pos hx] at h
      exact List.mem_cons_of_mem x (List.mem_of_mem_head? h)
    · rw [if_neg hx] at h
      exact List.mem_cons_of_mem x (ih h)

theorem nextAfter_nodup {qs : List Nat} {p : Nat} {c : Nat}
    (hnd : qs.Nodup) (hp : qs[p]? = some c) : nextAfter qs c = qs[p + 1]? := by
  induction qs generalizing p with
  | nil => exact Option.noConfusion hp
  | cons x t ih =>
    cases p with
    | zero =>
      have hc : x = c := by
        simpa using hp
      subst hc
      unfold nextAfter
      rw [if_pos rfl]
      simp [List.head?_eq_getElem?]
    | succ p =>
      have hpt : t[p]? = some c := by
        simpa using hp
      have hct : c ∈ t := List.getElem?_mem hpt
      have hxc : x ≠ c := by
        intro he
        subst he
        exact (List.nodup_cons.mp hnd).1 hct
      unfold nextAfter
      rw [if_neg hxc]
      have := ih (List.nodup_cons.mp hnd).2 hpt
      simpa using this

theorem nodup_getElem?_inj {qs : List Nat} {i j a : Nat} (hnd : qs.Nodup)
    (hi : qs[i]? = some a) (hj : qs[j]? = some a) : i = j := by
  induction qs generalizing i j with
  | nil => exact Option.noConfusion hi
  | cons x t ih =>
    cases i with
    | zero =>
      cases j with
      | zero => rfl
      | succ j =>
        have hx : x = a := by simpa using hi
        have hjt : t[j]? = some a := by simpa using hj
        subst hx
        exact absurd (List.getElem?_mem hjt) (List.nodup_cons.mp hnd).1
    | succ i =>
      cases j with
      | zero =>
        have hx : x = a := by simpa using hj
        have hit : t[i]? = some a := by simpa using hi
        subst hx
        exact absurd (List.getElem?_mem hit) (List.nodup_cons.mp hnd).1
      | succ j =>
        have hit : t[i]? = some a := by simpa using hi
        have hjt : t[j]? = some a := by simpa using hj
        have := ih (List.nodup_cons.mp hnd).2 hit hjt
        omega

theorem dequeueOne_eq {q : Queue} {x : Nat} {rest : List Nat}
    (hch : q.chain = x :: rest) :
    dequeueOne q = ⟨q.itemSize, rest, if rest = [] then false else q.tailSet,
      q.numOfItems - 1, q.qset⟩ := by
  simp [dequeueOne, hch]

theorem pollOneStep_pick {w : World} {sid : Nat} {s : QSet} {qs : List Nat}
    {p qid : Nat} (hgs : getS w sid = some s) (hmem : s.members = qs)
    (hcur : cursorAt qs s.current p) (hqp : qs[p]? = some qid) :
    pollOneStep w sid =
      (setS w sid { s with current := nextAfter qs qid }, some qid) := by
  subst hmem
  cases hc : s.current with
  | none =>
    have hp : p = 0 := by
      rw [hc] at hcur
      exact hcur
    subst hp
    have hh : s.members.head? = some qid := by
      rw [List.head?_eq_getElem?]
      exact hqp
    simp [pollOneStep, hgs, hc, hh]
  | some c =>
    have hp : s.members[p]? = some c := by
      rw [hc] at hcur
      exact hcur
    have hcq : c = qid := by
      rw [hp] at hqp
      exact Option.some.inj hqp
    subst hcq
    simp [pollOneStep, hgs, hc]

theorem pollDequeue_hit {w : World} (sid : Nat) {qid : Nat} {q : Queue}
    {x : Nat} {rest : List Nat} (hgq : getQ w qid = some q)
    (hch : q.chain = x :: rest) :
    pollDequeue w sid qid =
      (bumpSetItems (setQ w qid ⟨q.itemSize, rest,
        if rest = [] then false else q.tailSet, q.numOfItems - 1, q.qset⟩)
        sid (-1), some x) := by
  simp [pollDequeue, hgq, hch]

theorem pollOnce_hit {w : World} {sid : Nat} {s : QSet} {qs : List Nat}
    {p qid : Nat} {q : Queue} {x : Nat} {rest : List Nat}
    (hgs : getS w sid = some s) (hmem : s.members = qs)
    (hk : s.numOfQueues = (qs.length : Int))
    (hcur : cursorAt qs s.current p) (hqp : qs[p]? = some qid)
    (hgq : getQ w qid = some q) (hch : q.chain = x :: rest) :
    taosReadQitemFromQset w sid =
      (bumpSetItems (setQ (setS w sid { s with current := nextAfter qs qid })
        qid ⟨q.itemSize, rest, if rest = [] then false else q.tailSet,
             q.numOfItems - 1, q.qset⟩) sid (-1), 1, some x) := by
  have hlen : 0 < qs.length := by
    by_contra hn
    rw [List.getElem?_eq_none (by omega)] at hqp
    exact Option.noConfusion hqp
  obtain ⟨m, hm⟩ : ∃ m, qs.length = m + 1 := ⟨qs.length - 1, by omega⟩
  have hfuel : s.numOfQueues.toNat = m + 1 := by
    rw [hk, Int.toNat_natCast, hm]
  have hstep := pollOneStep_pick hgs hmem hcur hqp
  have hgq1 : getQ (setS w sid { s with current := nextAfter qs qid }) qid =
      some q := by
    rw [getQ_setS]
    exact hgq
  have hdq := pollDequeue_hit sid hgq1 hch
  have hloop := pollLoop_succ_hit m hstep hdq
  have hun : taosReadQitemFromQset w sid = pollLoop sid s.numOfQueues.toNat w := by
    simp [taosReadQitemFromQset, hgs]
  rw [hun, hfuel, hloop]

theorem pollCalls_succ {w w1 : World} {sid : Nat} {code : Int}
    {ox : Option Nat} (j : Nat)
    (h : taosReadQitemFromQset w sid = (w1, code, ox)) :
    pollCalls (j + 1) w sid =
      ((pollCalls j w1 sid).1, (code, ox) :: (pollCalls j w1 sid).2) := by
  simp [pollCalls, h]

theorem pollCalls_succ2 (j : Nat) (w : World) (sid : Nat) :
    pollCalls (j + 1) w sid =
      ((pollCalls j (taosReadQitemFromQset w sid).1 sid).1,
       ((taosReadQitemFromQset w sid).2.1, (taosReadQitemFromQset w sid).2.2) ::
         (pollCalls j (taosReadQitemFromQset w sid).1 sid).2) := by
  rcases hr : taosReadQitemFromQset w sid with ⟨w1, code, ox⟩
  simp [pollCalls, hr]

theorem pollCalls_add (a b : Nat) :
    ∀ (w : World) (sid : Nat),
      pollCalls (a + b) w sid =
        ((pollCalls b (pollCalls a w sid).1 sid).1,
         (pollCalls a w sid).2 ++ (pollCalls b (pollCalls a w sid).1 sid).2) := by
  induction a with
  | zero =>
    intro w sid
    rw [Nat.zero_add]
    simp [pollCalls]
  | succ a ih =>
    intro w sid
    rcases hr : taosReadQitemFromQset w sid with ⟨w1, code, ox⟩
    rw [Nat.succ_add, pollCalls_succ (a + b) hr, pollCalls_succ a hr, ih w1 sid]
    simp

/-- A run of j consecutive taosReadQitemFromQset calls over a well formed
set whose queues at cursor positions p, p+1, ..., p+j-1 are all non empty:
every call returns code 1, the cursor ends at position p+j (wrapped to the
head when the run reaches the end of the member list), the aggregate drops
by j, the visited queues each lose exactly their head node, and every other
queue is untouched. -/
theorem pollRun (sid : Nat) (qs : List Nat) (hnd : qs.Nodup) (hqsne : qs ≠ []) :
    ∀ (j : Nat) (w : World) (s : QSet) (p : Nat),
      getS w sid = some s →
      s.members = qs →
      s.numOfQueues = (qs.length : Int) →
      cursorAt qs s.current p →
      p + j ≤ qs.length →
      (∀ i, p ≤ i → i < p + j → ∀ qid, qs[i]? = some qid →
        ∃ q, getQ w qid = some q ∧ q.chain ≠ []) →
      (∀ r ∈ (pollCalls j w sid).2, r.1 = 1) ∧
      (∃ c1, getS (pollCalls j w sid).1 sid =
          some { s with current := c1, numOfItems := s.numOfItems - (j : Int) } ∧
          cursorAt qs c1 (if p + j = qs.length then 0 else p + j)) ∧
      (∀ i qid, qs[i]? = some qid →
        (p ≤ i ∧ i < p + j →
          getQ (pollCalls j w sid).1 qid = (getQ w qid).map dequeueOne) ∧
        (¬(p ≤ i ∧ i < p + j) →
          getQ (pollCalls j w sid).1 qid = getQ w qid)) := by
  intro j
  induction j with
  | zero =>
    intro w s p hgs hmem hk hcur hle hne
    have hplt : p < qs.length := cursorAt_lt hcur hqsne
    refine ⟨?_, ⟨s.current, ?_, ?_⟩, ?_⟩
    · intro r hr
      simp [pollCalls] at hr
    · simpa using hgs
    · rw [if_neg (by omega)]
      simpa using hcur
    · intro i qid hqi
      exact ⟨fun h => by omega, fun _ => rfl⟩
  | succ j ih =>
    intro w s p hgs hmem hk hcur hle hne
    have hplt : p < qs.length := cursorAt_lt hcur hqsne
    obtain ⟨qid, hqp⟩ : ∃ qid, qs[p]? = some qid :=
      ⟨qs[p], List.getElem?_eq_getElem hplt⟩
    obtain ⟨q, hgq, hchne⟩ := hne p (Nat.le_refl p) (by omega) qid hqp
    obtain ⟨x, rest, hch⟩ : ∃ x rest, q.chain = x :: rest := by
      cases hc : q.chain with
      | nil => exact absurd hc hchne
      | cons x rest => exact ⟨x, rest, rfl⟩
    have hcall := pollOnce_hit hgs hmem hk hcur hqp hgq hch
    have hna : nextAfter qs qid = qs[p + 1]? := nextAfter_nodup hnd hqp
    have hcode : (taosReadQitemFromQset w sid).2.1 = 1 := by
      rw [hcall]
    have hox : (taosReadQitemFromQset w sid).2.2 = some x := by
      rw [hcall]
    have hgs1 : getS (taosReadQitemFromQset w sid).1 sid =
        some { s with current := qs[p + 1]?,
                      numOfItems := s.numOfItems - 1 } := by
      rw [hcall]
      show getS (bumpSetItems _ sid (-1)) sid = _
      rw [getS_bumpSetItems_self (by rw [getS_setQ]; exact getS_setS_self hgs)]
      rw [hna]
      have harith : s.numOfItems + (-1) = s.numOfItems - 1 := by ring
      rw [harith]
    have hother : ∀ qid2, qid2 ≠ qid →
        getQ (taosReadQitemFromQset w sid).1 qid2 = getQ w qid2 := by
      intro qid2 hne2
      rw [hcall]
      show getQ (bumpSetItems _ _ _) qid2 = _
      rw [getQ_bumpSetItems, getQ_setQ,
        if_neg (fun hand => hne2 hand.1.symm)]
      rfl
    have hvisited : getQ (taosReadQitemFromQset w sid).1 qid =
        some (dequeueOne q) := by
      rw [hcall]
      show getQ (bumpSetItems _ _ _) qid = _
      rw [getQ_bumpSetItems, dequeueOne_eq hch]
      exact getQ_setQ_self (by rw [getQ_setS]; exact hgq)
    rw [pollCalls_succ2 j w sid]
    by_cases hpe : p + 1 = qs.length
    · -- the run reached the end of the member list with this single call
      have hj : j = 0 := by omega
      subst hj
      have hnone : qs[p + 1]? = none := List.getElem?_eq_none (by omega)
      refine ⟨?_, ⟨qs[p + 1]?, ?_, ?_⟩, ?_⟩
      · intro r hr
        simp only [pollCalls, List.mem_cons] at hr
        rcases hr with hr | hr
        · rw [hr]
          exact hcode
        · simp at hr
      · show getS (taosReadQitemFromQset w sid).1 sid = _
        rw [hgs1]
        simp
      · rw [hnone]
        rw [if_pos (by omega)]
        rfl
      · intro i qid2 hqi
        constructor
        · intro hrange
          have hip : i = p := by omega
          subst hip
          have hq2 : qid2 = qid := by
            rw [hqi] at hqp
            exact Option.some.inj hqp
          subst hq2
          show getQ (taosReadQitemFromQset w sid).1 qid2 = _
          rw [hvisited, hgq]
          rfl
        · intro hrange
          have hip : i ≠ p := by omega
          have hq2 : qid2 ≠ qid := by
            intro he
            subst he
            exact hip (nodup_getElem?_inj hnd hqi hqp)
          exact hother qid2 hq2
    · -- the cursor lands inside the member list; recurse
      have hplt1 : p + 1 < qs.length := by omega
      obtain ⟨c2, hc2⟩ : ∃ c2, qs[p + 1]? = some c2 :=
        ⟨qs[p + 1], List.getElem?_eq_getElem hplt1⟩
      have hcur1 : cursorAt qs
          (QSet.current { s with current := qs[p + 1]?,
                                 numOfItems := s.numOfItems - 1 }) (p + 1) := by
        show cursorAt qs qs[p + 1]? (p + 1)
        rw [hc2]
        exact hc2
      have hne1 : ∀ i, p + 1 ≤ i → i < (p + 1) + j → ∀ qid2, qs[i]? = some qid2 →
          ∃ q2, getQ (taosReadQitemFromQset w sid).1 qid2 = some q2 ∧
            q2.chain ≠ [] := by
        intro i h1 h2 qid2 hqi
        have hip : i ≠ p := by omega
        have hq2 : qid2 ≠ qid := by
          intro he
          subst he
          exact hip (nodup_getElem?_inj hnd hqi hqp)
        rw [hother qid2 hq2]
        exact hne i (by omega) (by omega) qid2 hqi
      obtain ⟨ihcodes, ⟨c1, ihset, ihcur⟩, ihqueues⟩ :=
        ih (taosReadQitemFromQset w sid).1
          { s with current := qs[p + 1]?, numOfItems := s.numOfItems - 1 }
          (p + 1) hgs1 hmem hk hcur1 (by omega) hne1
      refine ⟨?_, ⟨c1, ?_, ?_⟩, ?_⟩
      · intro r hr
        simp only [List.mem_cons] at hr
        rcases hr with hr | hr
        · rw [hr]
          exact hcode
        · exact ihcodes r hr
      · show getS (pollCalls j (taosReadQitemFromQset w sid).1 sid).1 sid = _
        rw [ihset]
        have harith : s.numOfItems - 1 - (j : Int) =
            s.numOfItems - ((j + 1 : Nat) : Int) := by
          push_cast
          ring
        rw [harith]
      · have heq : (p + 1) + j = p + (j + 1) := by omega
        rw [heq] at ihcur
        exact ihcur
      · intro i qid2 hqi
        constructor
        · intro hrange
          by_cases hip : i = p
          · subst hip
            have hq2 : qid2 = qid := by
              rw [hqi] at hqp
              exact Option.some.inj hqp
            subst hq2
            have hun := (ihqueues i qid2 hqi).2 (by omega)
            show getQ (pollCalls j (taosReadQitemFromQset w sid).1 sid).1 qid2 = _
            rw [hun, hvisited, hgq]
            rfl
          · have hq2 : qid2 ≠ qid := by
              intro he
              subst he
              exact hip (nodup_getElem?_inj hnd hqi hqp)
            have hv := (ihqueues i qid2 hqi).1 (by omega)
            show getQ (pollCalls j (taosReadQitemFromQset w sid).1 sid).1 qid2 = _
            rw [hv, hother qid2 hq2]
        · intro hrange
          have hip : i ≠ p := by omega
          have hq2 : qid2 ≠ qid := by
            intro he
            subst he
            exact hip (nodup_getElem?_inj hnd hqi hqp)
          have hun := (ihqueues i qid2 hqi).2 (by omega)
          show getQ (pollCalls j (taosReadQitemFromQset w sid).1 sid).1 qid2 = _
          rw [hun, hother qid2 hq2]

/-- A full pass of the poll loop over a set whose member queues are all
empty touches no queue and produces code 0 with no item, whatever the
fuel. -/
theorem pollLoop_empty (sid : Nat) :
    ∀ (fuel : Nat) (w : World) (s : QSet),
      getS w sid = some s →
      (∀ c, s.current = some c → c ∈ s.members) →
      (∀ qid ∈ s.members, ∀ q, getQ w qid = some q → q.chain = []) →
      (pollLoop sid fuel w).1.queues = w.queues ∧
      (pollLoop sid fuel w).2 = (0, none) := by
  intro fuel
  induction fuel with
  | zero =>
    intro w s hgs hcw hemp
    exact ⟨rfl, rfl⟩
  | succ n ih =>
    intro w s hgs hcw hemp
    have hvisit : ∀ qid, qid ∈ s.members →
        pollOneStep w sid =
          (setS w sid { s with current := nextAfter s.members qid }, some qid) →
        (pollLoop sid (n + 1) w).1.queues = w.queues ∧
        (pollLoop sid (n + 1) w).2 = (0, none) := by
      intro qid hmem hps
      have hdq : pollDequeue
          (setS w sid { s with current := nextAfter s.members qid }) sid qid =
          (setS w sid { s with current := nextAfter s.members qid }, none) := by
        cases hgq : getQ (setS w sid
            { s with current := nextAfter s.members qid }) qid with
        | none => simp [pollDequeue, hgq]
        | some q =>
          have hq : getQ w qid = some q := by
            rw [getQ_setS] at hgq
            exact hgq
          have hch := hemp qid hmem q hq
          simp [pollDequeue, hgq, hch]
      rw [pollLoop_succ_miss n hps hdq]
      have hih := ih (setS w sid { s with current := nextAfter s.members qid })
        { s with current := nextAfter s.members qid }
        (getS_setS_self hgs)
        (by
          intro c hc
          simp only at hc
          exact nextAfter_mem hc)
        (by
          intro qid2 hm2 q hq
          rw [getQ_setS] at hq
          exact hemp qid2 hm2 q hq)
      exact ⟨hih.1, hih.2⟩
    cases hc : s.current with
    | some c =>
      have hmem := hcw c hc
      have hps : pollOneStep w sid =
          (setS w sid { s with current := nextAfter s.members c }, some c) := by
        simp [pollOneStep, hgs, hc]
      exact hvisit c hmem hps
    | none =>
      cases hh : s.members.head? with
      | none =>
        have hps : pollOneStep w sid =
            (setS w sid { s with current := none }, none) := by
          simp [pollOneStep, hgs, hc, hh]
        rw [pollLoop_succ_break n hps]
        exact ⟨rfl, rfl⟩
      | some qid =>
        have hmem : qid ∈ s.members := List.mem_of_mem_head? hh
        have hps : pollOneStep w sid =
            (setS w sid { s with current := nextAfter s.members qid },
             some qid) := by
          simp [pollOneStep, hgs, hc, hh]
        exact hvisit qid hmem hps

/-- General single scan of the poll loop with mixed emptiness: when the
queues at the first m cyclic visit positions (counted from the cursor
position p, wrapping past the end of the member list) are all empty and the
queue at cyclic position p + m is non empty, the loop returns the head of
that first non empty queue with code 1, dequeues exactly that queue, leaves
every other queue untouched, decrements the aggregate by one, and leaves the
cursor one past the hit position — one cursor advance per visited queue,
miss or hit. -/
theorem pollLoop_scan (sid : Nat) (qs : List Nat) (hnd : qs.Nodup)
    (hqsne : qs ≠ []) :
    ∀ (m fuel : Nat) (w : World) (s : QSet) (p : Nat),
      m < fuel →
      getS w sid = some s →
      s.members = qs →
      cursorAt qs s.current p →
      (∀ i, i < m → ∀ qid, qs[(p + i) % qs.length]? = some qid →
        ∃ q, getQ w qid = some q ∧ q.chain = []) →
      ∀ (qidm : Nat) (qm : Queue) (x : Nat) (rest : List Nat),
        qs[(p + m) % qs.length]? = some qidm →
        getQ w qidm = some qm → qm.chain = x :: rest →
        (pollLoop sid fuel w).2 = (1, some x) ∧
        getQ (pollLoop sid fuel w).1 qidm = some (dequeueOne qm) ∧
        (∀ qid2, qid2 ≠ qidm →
          getQ (pollLoop sid fuel w).1 qid2 = getQ w qid2) ∧
        (∃ c1, getS (pollLoop sid fuel w).1 sid =
          some { s with current := c1, numOfItems := s.numOfItems - 1 } ∧
          cursorAt qs c1 ((p + m + 1) % qs.length)) := by
  intro m
  induction m with
  | zero =>
    intro fuel w s p hmf hgs hmem hcur hemp qidm qm x rest hqm hgq hch
    have hplt : p < qs.length := cursorAt_lt hcur hqsne
    have hp0 : (p + 0) % qs.length = p := by
      rw [Nat.add_zero, Nat.mod_eq_of_lt hplt]
    rw [hp0] at hqm
    obtain ⟨f, hf⟩ : ∃ f, fuel = f + 1 := ⟨fuel - 1, by omega⟩
    subst hf
    have hstep := pollOneStep_pick hgs hmem hcur hqm
    have hgq1 : getQ (setS w sid { s with current := nextAfter qs qidm }) qidm =
        some qm := by
      rw [getQ_setS]
      exact hgq
    have hdq := pollDequeue_hit sid hgq1 hch
    have hloop := pollLoop_succ_hit f hstep hdq
    rw [hloop]
    have hna : nextAfter qs qidm = qs[p + 1]? := nextAfter_nodup hnd hqm
    refine ⟨rfl, ?_, ?_, ⟨nextAfter qs qidm, ?_, ?_⟩⟩
    · show getQ (bumpSetItems _ _ _) qidm = _
      rw [getQ_bumpSetItems, dequeueOne_eq hch]
      exact getQ_setQ_self hgq1
    · intro qid2 hne2
      show getQ (bumpSetItems _ _ _) qid2 = _
      rw [getQ_bumpSetItems, getQ_setQ, if_neg (fun hand => hne2 hand.1.symm)]
      rfl
    · show getS (bumpSetItems _ _ _) sid = _
      rw [getS_bumpSetItems_self (by rw [getS_setQ]; exact getS_setS_self hgs)]
      have harith : s.numOfItems + (-1) = s.numOfItems - 1 := by ring
      rw [harith]
    · rw [hna, Nat.add_zero]
      exact cursorAt_succ hplt
  | succ m ih =>
    intro fuel w s p hmf hgs hmem hcur hemp qidm qm x rest hqm hgq hch
    have hplt : p < qs.length := cursorAt_lt hcur hqsne
    obtain ⟨f, hf⟩ : ∃ f, fuel = f + 1 := ⟨fuel - 1, by omega⟩
    subst hf
    obtain ⟨qid0, hqp0⟩ : ∃ qid0, qs[p]? = some qid0 :=
      ⟨qs[p], List.getElem?_eq_getElem hplt⟩
    obtain ⟨q0, hgq0, hch0⟩ := hemp 0 (Nat.succ_pos m) qid0
      (by rw [Nat.add_zero, Nat.mod_eq_of_lt hplt]; exact hqp0)
    have hstep := pollOneStep_pick hgs hmem hcur hqp0
    have hgq0s : getQ (setS w sid { s with current := nextAfter qs qid0 })
        qid0 = some q0 := by
      rw [getQ_setS]
      exact hgq0
    have hdq : pollDequeue (setS w sid { s with current := nextAfter qs qid0 })
        sid qid0 =
        (setS w sid { s with current := nextAfter qs qid0 }, none) := by
      simp [pollDequeue, hgq0s, hch0]
    rw [pollLoop_succ_miss f hstep hdq]
    have hna0 : nextAfter qs qid0 = qs[p + 1]? := nextAfter_nodup hnd hqp0
    have hcur1 : cursorAt qs
        (QSet.current { s with current := nextAfter qs qid0 })
        ((p + 1) % qs.length) := by
      show cursorAt qs (nextAfter qs qid0) ((p + 1) % qs.length)
      rw [hna0]
      exact cursorAt_succ hplt
    have hemp1 : ∀ i, i < m → ∀ qid,
        qs[((p + 1) % qs.length + i) % qs.length]? = some qid →
        ∃ q, getQ (setS w sid { s with current := nextAfter qs qid0 }) qid =
          some q ∧ q.chain = [] := by
      intro i hi qid hqi
      rw [Nat.mod_add_mod] at hqi
      have hidx : p + 1 + i = p + (i + 1) := by omega
      rw [hidx] at hqi
      have hres := hemp (i + 1) (by omega) qid hqi
      simpa [getQ_setS] using hres
    have hqm1 : qs[((p + 1) % qs.length + m) % qs.length]? = some qidm := by
      rw [Nat.mod_add_mod]
      have hidx : p + 1 + m = p + (m + 1) := by omega
      rw [hidx]
      exact hqm
    have hgq1 : getQ (setS w sid { s with current := nextAfter qs qid0 })
        qidm = some qm := by
      rw [getQ_setS]
      exact hgq
    obtain ⟨h1, h2, h3, ⟨c1, h4, h5⟩⟩ :=
      ih f (setS w sid { s with current := nextAfter qs qid0 })
        { s with current := nextAfter qs qid0 } ((p + 1) % qs.length)
        (by omega) (getS_setS_self hgs) hmem hcur1 hemp1 qidm qm x rest
        hqm1 hgq1 hch
    refine ⟨h1, h2, ?_, ⟨c1, h4, ?_⟩⟩
    · intro qid2 hne2
      rw [h3 qid2 hne2, getQ_setS]
    · rw [Nat.add_assoc, Nat.mod_add_mod] at h5
      have hidx : p + 1 + (m + 1) = p + (m + 1) + 1 := by omega
      rw [hidx] at h5
      exact h5

/-- C6: round robin.
First part: on a set with k distinct member queues, all non empty, k
consecutive taosReadQitemFromQset calls all return code 1 and dequeue the
head of every member queue exactly once each (so each queue is visited
exactly once, starting anywhere).
Second part (mixed sets): a single call that finds empty queues at its
first m cyclic visit positions and a non empty queue right after dequeues
one item from that first non empty queue visited, leaves every other queue
(the misses included) untouched, and advances the cursor by exactly one
queue per visited queue — m misses plus the hit.
Third part: whenever some member queue is non empty, the call returns code
1, so empty is reported only when every visited queue was empty.
Fourth part: when every member queue is empty, the full pass touches no
queue and returns code 0 with no item. -/
theorem c6_roundrobin_fairness :
    (∀ (w : World) (sid : Nat) (s : QSet) (p : Nat),
      getS w sid = some s → s.members.Nodup → s.members ≠ [] →
      s.numOfQueues = (s.members.length : Int) →
      cursorAt s.members s.current p →
      (∀ qid ∈ s.members, ∃ q, getQ w qid = some q ∧ q.chain ≠ []) →
      (∀ r ∈ (pollCalls s.members.length w sid).2, r.1 = 1) ∧
      (∀ qid ∈ s.members, getQ (pollCalls s.members.length w sid).1 qid =
        (getQ w qid).map dequeueOne)) ∧
    (∀ (w : World) (sid : Nat) (s : QSet) (p m qidm : Nat) (qm : Queue)
        (x : Nat) (rest : List Nat),
      getS w sid = some s → s.members.Nodup → s.members ≠ [] →
      s.numOfQueues = (s.members.length : Int) →
      cursorAt s.members s.current p →
      m < s.members.length →
      (∀ i, i < m → ∀ qid, s.members[(p + i) % s.members.length]? = some qid →
        ∃ q, getQ w qid = some q ∧ q.chain = []) →
      s.members[(p + m) % s.members.length]? = some qidm →
      getQ w qidm = some qm → qm.chain = x :: rest →
      (taosReadQitemFromQset w sid).2 = (1, some x) ∧
      getQ (taosReadQitemFromQset w sid).1 qidm = some (dequeueOne qm) ∧
      (∀ qid2, qid2 ≠ qidm →
        getQ (taosReadQitemFromQset w sid).1 qid2 = getQ w qid2) ∧
      (∃ c1, getS (taosReadQitemFromQset w sid).1 sid =
        some { s with current := c1, numOfItems := s.numOfItems - 1 } ∧
        cursorAt s.members c1 ((p + m + 1) % s.members.length))) ∧
    (∀ (w : World) (sid : Nat) (s : QSet) (p : Nat),
      getS w sid = some s → s.members.Nodup → s.members ≠ [] →
      s.numOfQueues = (s.members.length : Int) →
      cursorAt s.members s.current p →
      (∀ qid ∈ s.members, ∃ q, getQ w qid = some q) →
      (∃ qid ∈ s.members, ∃ q, getQ w qid = some q ∧ q.chain ≠ []) →
      (taosReadQitemFromQset w sid).2.1 = 1) ∧
    (∀ (w2 : World) (sid : Nat) (s2 : QSet), getS w2 sid = some s2 →
      (∀ c, s2.current = some c → c ∈ s2.members) →
      (∀ qid ∈ s2.members, ∀ q, getQ w2 qid = some q → q.chain = []) →
      (taosReadQitemFromQset w2 sid).1.queues = w2.queues ∧
      (taosReadQitemFromQset w2 sid).2 = (0, none)) := by
  refine ⟨?_, ?_, ?_, ?_⟩
  · -- k calls over k distinct all non empty queues: all hit, each dequeued once
    intro w sid s p hgs hnd hne hk hcur hnonempty
    have hplt : p < s.members.length := cursorAt_lt hcur hne
    have hrange1 : ∀ i, p ≤ i → i < p + (s.members.length - p) →
        ∀ qid, s.members[i]? = some qid →
          ∃ q, getQ w qid = some q ∧ q.chain ≠ [] := by
      intro i _ _ qid hqi
      exact hnonempty qid (List.getElem?_mem hqi)
    obtain ⟨codes1, ⟨c1, hset1, hcur1⟩, hqueues1⟩ :=
      pollRun sid s.members hnd hne (s.members.length - p) w s p hgs rfl hk hcur
        (by omega) hrange1
    rw [if_pos (by omega)] at hcur1
    obtain ⟨codes2, ⟨c2, hset2, hcur2⟩, hqueues2⟩ :=
      pollRun sid s.members hnd hne p (pollCalls (s.members.length - p) w sid).1
        { s with current := c1,
                 numOfItems := s.numOfItems - ((s.members.length - p : Nat) : Int) }
        0 hset1 rfl hk hcur1 (by omega)
        (by
          intro i h0 hip qid hqi
          have hun := (hqueues1 i qid hqi).2 (by omega)
          rw [hun]
          exact hnonempty qid (List.getElem?_mem hqi))
    have hsplit := pollCalls_add (s.members.length - p) p w sid
    have hkk : (s.members.length - p) + p = s.members.length := by omega
    rw [hkk] at hsplit
    refine ⟨?_, ?_⟩
    · intro r hr
      rw [hsplit] at hr
      simp only [List.mem_append] at hr
      rcases hr with hr | hr
      · exact codes1 r hr
      · exact codes2 r hr
    · intro qid hqmem
      obtain ⟨i, hqi⟩ := List.getElem?_of_mem hqmem
      have hik : i < s.members.length := by
        by_contra hn
        rw [List.getElem?_eq_none (by omega)] at hqi
        exact Option.noConfusion hqi
      rw [hsplit]
      show getQ (pollCalls p (pollCalls (s.members.length - p) w sid).1 sid).1
        qid = _
      by_cases hip : i < p
      · have hv := (hqueues2 i qid hqi).1 (by omega)
        have hu := (hqueues1 i qid hqi).2 (by omega)
        rw [hv, hu]
      · have hu := (hqueues2 i qid hqi).2 (by omega)
        have hv := (hqueues1 i qid hqi).1 (by omega)
        rw [hu, hv]
  · -- mixed set: m misses then the first non empty queue is dequeued
    intro w sid s p m qidm qm x rest hgs hnd hne hk hcur hmlt hemp hqm hgq hch
    have hscan := pollLoop_scan sid s.members hnd hne m s.numOfQueues.toNat w s p
      (by rw [hk, Int.toNat_natCast]; omega) hgs rfl hcur hemp qidm qm x rest
      hqm hgq hch
    have hun : taosReadQitemFromQset w sid =
        pollLoop sid s.numOfQueues.toNat w := by
      simp [taosReadQitemFromQset, hgs]
    rw [hun]
    exact hscan
  · -- some member queue non empty: the call returns an item
    intro w sid s p hgs hnd hne hk hcur hqall hex
    have hk0 : 0 < s.members.length := List.length_pos.mpr hne
    obtain ⟨qid, hqmem, q, hgq, hchne⟩ := hex
    obtain ⟨a, hqa⟩ := List.getElem?_of_mem hqmem
    have halt : a < s.members.length := by
      by_contra hn
      rw [List.getElem?_eq_none (by omega)] at hqa
      exact Option.noConfusion hqa
    have hPi : hitAtPos w s.members p
        ((s.members.length - p + a) % s.members.length) = true := by
      have hidx : (p + (s.members.length - p + a) % s.members.length) %
          s.members.length = a := by
        rw [Nat.add_mod_mod]
        have hx : p + (s.members.length - p + a) = s.members.length + a := by
          have hplt : p < s.members.length := cursorAt_lt hcur hne
          omega
        rw [hx, Nat.add_mod_left, Nat.mod_eq_of_lt halt]
      unfold hitAtPos
      rw [hidx, hqa]
      show (match getQ w qid with
            | none => false
            | some q => !q.chain.isEmpty) = true
      rw [hgq]
      simpa using hchne
    have hexP : ∃ i, hitAtPos w s.members p i = true := ⟨_, hPi⟩
    have hmlt : Nat.find hexP < s.members.length :=
      Nat.lt_of_le_of_lt (Nat.find_min' hexP hPi) (Nat.mod_lt _ hk0)
    have hm := Nat.find_spec hexP
    unfold hitAtPos at hm
    cases hq1 : s.members[(p + Nat.find hexP) % s.members.length]? with
    | none =>
      rw [hq1] at hm
      exact absurd hm (by simp)
    | some qid1 =>
      rw [hq1] at hm
      have hm2 : (match getQ w qid1 with
          | none => false
          | some q => !q.chain.isEmpty) = true := hm
      cases hq2 : getQ w qid1 with
      | none =>
        rw [hq2] at hm2
        exact absurd hm2 (by simp)
      | some q1 =>
        rw [hq2] at hm2
        have hne1 : q1.chain ≠ [] := by simpa using hm2
        obtain ⟨x, rest, hch⟩ : ∃ x rest, q1.chain = x :: rest := by
          cases hc : q1.chain with
          | nil => exact absurd hc hne1
          | cons x rest => exact ⟨x, rest, rfl⟩
        have hempm : ∀ i, i < Nat.find hexP → ∀ qid2,
            s.members[(p + i) % s.members.length]? = some qid2 →
            ∃ q2, getQ w qid2 = some q2 ∧ q2.chain = [] := by
          intro i hi qid2 hqi2
          have hnp := Nat.find_min hexP hi
          unfold hitAtPos at hnp
          rw [hqi2] at hnp
          have hnp2 : ¬((match getQ w qid2 with
              | none => false
              | some q => !q.chain.isEmpty) = true) := hnp
          obtain ⟨q2, hgq2⟩ := hqall qid2 (List.getElem?_mem hqi2)
          rw [hgq2] at hnp2
          refine ⟨q2, hgq2, ?_⟩
          by_contra hne2
          exact hnp2 (by simpa using hne2)
        have hscan := pollLoop_scan sid s.members hnd hne (Nat.find hexP)
          s.numOfQueues.toNat w s p (by rw [hk, Int.toNat_natCast]; omega)
          hgs rfl hcur hempm qid1 q1 x rest hq1 hq2 hch
        have hun : taosReadQitemFromQset w sid =
            pollLoop sid s.numOfQueues.toNat w := by
          simp [taosReadQitemFromQset, hgs]
        rw [hun, hscan.1]
  · -- all member queues empty: nothing is touched, code 0
    intro w2 sid s2 hgs2 hcw2 hemp2
    have hun : taosReadQitemFromQset w2 sid =
        pollLoop sid s2.numOfQueues.toNat w2 := by
      simp [taosReadQitemFromQset, hgs2]
    rw [hun]
    exact pollLoop_empty sid s2.numOfQueues.toNat w2 s2 hgs2 hcw2 hemp2

/-- Witness for C6 at the mixed concrete world wSetMixed: the member list is
[1, 0], queue 1 (visited first from the fresh cursor) is empty, queue 0
holds item 7; the call misses once, then dequeues 7 from queue 0. -/
theorem c6_roundrobin_fairness_witness :
    (taosReadQitemFromQset wSetMixed 0).2 = (1, some 7) := by
  have h := c6_roundrobin_fairness.2.1 wSetMixed 0 ⟨[1, 0], none, 2, 1⟩ 0 1 0
    ⟨4, [7], true, 1, some 0⟩ 7 []
    (by decide) (by decide) (by decide) (by decide) rfl (by decide)
    (by
      intro i hi qid hqi
      have hi0 : i = 0 := by omega
      subst hi0
      simp at hqi
      subst hqi
      exact ⟨⟨4, [], false, 0, some 0⟩, by decide, rfl⟩)
    (by decide) (by decide) rfl
  exact h.1
theorem wf_inv3 {q : Queue} (h : q.wf) : q.inv3 := by
  rcases h with ⟨h1, h2⟩
  constructor
  · constructor
    · intro hh
      have hch : q.chain = [] := List.head?_eq_none_iff.mp hh
      cases ht : q.tailSet with
      | false => rfl
      | true => exact absurd (h2.mp ht) (by simp [hch])
    · intro ht
      have hch : q.chain = [] := by
        by_contra hne
        rw [h2.mpr hne] at ht
        exact Bool.noConfusion ht
      simp [hch]
  · constructor
    · intro hh
      have hch := List.head?_eq_none_iff.mp hh
      rw [h1, hch]
      simp
    · intro hn
      rw [h1] at hn
      have hz : q.chain.length = 0 := by exact_mod_cast hn
      have hch := List.length_eq_zero.mp hz
      simp [hch]

/-- C9: the structural invariant (head NULL iff tail NULL iff item count 0)
holds on a freshly opened queue and is preserved by every queue mutating
operation: enqueue, dequeue, drain, and the set side poll and drain.  The
inductive form wf (count = chain length, tail flag iff non empty chain)
implies the spec invariant inv3 and is preserved everywhere. -/
theorem c9_structural_invariant :
    (∀ (w : World) (sz : Nat) (q : Queue),
      getQ (taosOpenQueue w sz).1 (taosOpenQueue w sz).2 = some q → q.inv3) ∧
    (∀ q : Queue, q.wf → q.inv3) ∧
    (∀ (w : World) (qid item : Nat) (ok : Bool), wfQueues w →
      wfQueues (taosWriteQitem w qid item ok).1) ∧
    (∀ (w : World) (qid : Nat), wfQueues w → wfQueues (taosReadQitem w qid).1) ∧
    (∀ (w : World) (qid : Nat) (ok : Bool), wfQueues w →
      wfQueues (taosReadAllQitems w qid ok).1) ∧
    (∀ (w : World) (sid : Nat), wfQueues w →
      wfQueues (taosReadQitemFromQset w sid).1) ∧
    (∀ (w : World) (sid : Nat) (ok : Bool), wfQueues w →
      wfQueues (taosReadAllQitemsFromQset w sid ok).1) := by
  refine ⟨?_, fun q h => wf_inv3 h, wfQueues_write, wfQueues_read, wfQueues_readAll,
    ?_, ?_⟩
  · intro w sz q hgq
    rw [getQ_openQueue] at hgq
    cases hgq
    exact wf_inv3 ⟨by simp, by simp⟩
  · intro w sid hw
    unfold taosReadQitemFromQset
    cases getS w sid with
    | none => exact hw
    | some s => exact wfQueues_pollLoop sid _ w hw
  · intro w sid ok hw
    unfold taosReadAllQitemsFromQset
    cases getS w sid with
    | none => exact hw
    | some s => exact wfQueues_drainLoop sid ok _ w hw

/-- Witness for C9 at the concrete world wSetPairItems (all of whose queues
are well formed): each preservation conjunct applied there. -/
theorem c9_structural_invariant_witness :
    wfQueues (taosWriteQitem wSetPairItems 0 5 true).1 ∧
    wfQueues (taosReadQitem wSetPairItems 0).1 ∧
    wfQueues (taosReadAllQitems wSetPairItems 0 true).1 ∧
    wfQueues (taosReadQitemFromQset wSetPairItems 0).1 ∧
    wfQueues (taosReadAllQitemsFromQset wSetPairItems 0 true).1 :=
  ⟨c9_structural_invariant.2.2.1 wSetPairItems 0 5 true (by decide),
   c9_structural_invariant.2.2.2.1 wSetPairItems 0 (by decide),
   c9_structural_invariant.2.2.2.2.1 wSetPairItems 0 true (by decide),
   c9_structural_invariant.2.2.2.2.2.1 wSetPairItems 0 (by decide),
   c9_structural_invariant.2.2.2.2.2.2 wSetPairItems 0 true (by decide)⟩

/-- C10: once the batch view cursor has reached the end of the detached
chain, every further taosGetQitem call returns 0, produces no item, and
leaves the whole view (items, cursor, item size, item count) unchanged. -/
theorem c10_batchview_end_stable (a : QAll) (h : a.allItems.drop a.pos = []) :
    taosGetQitem a = (a, 0, none) := by
  unfold taosGetQitem
  rw [h]

/-- Witness for C10: a two item view whose cursor is at the end. -/
theorem c10_batchview_end_stable_witness :
    taosGetQitem ⟨[5, 6], 2, 4, 2⟩ = (⟨[5, 6], 2, 4, 2⟩, 0, none) :=
  c10_batchview_end_stable ⟨[5, 6], 2, 4, 2⟩ (by decide)

end TQueue
